import Mathlib

section AssocOps

variable {α : Type}

/-- First-match lookup in an association list: Python d[k] / d.get(k). -/
def alookup : List (String × α) → String → Option α
  | [], _ => none
  | (k1, v1) :: rest, k => if k1 = k then some v1 else alookup rest k

/-- Python d[k] = v : replace the value at the existing position, else append. -/
def aset : List (String × α) → String → α → List (String × α)
  | [], k, v => [(k, v)]
  | (k1, v1) :: rest, k, v =>
    if k1 = k then (k1, v) :: rest else (k1, v1) :: aset rest k v

/-- Python del d[k] (on a duplicate-free list this removes the one entry). -/
def aerase (es : List (String × α)) (k : String) : List (String × α) :=
  es.filter fun e => e.1 ≠ k

/-- Python k in d for a dict. -/
def ahas (es : List (String × α)) (k : String) : Bool :=
  (alookup es k).isSome

end AssocOps

/-!
Verification of the tljh-config mutation engine (src/tljh/config.py).

The configuration document is the in-memory value produced by the YAML loader:
nested Python dicts with string keys, lists, and scalars.  We embed it as the
tree type Doc below.  Mappings are association lists in insertion order, which
is exactly the observable state of a Python dict; real documents never carry a
duplicate key.  Python floats only enter a document through parse_value, i.e.
as decimal literals matched by a digits.digits regex; we represent such a float
exactly as a normalised decimal mantissa/exponent pair (num / 10 ^ exp, with
exp = 0 or num not divisible by 10), which makes Python equality of these
values decidable and exact.

Errors raised by the Python code are modelled by the PyErr type; constructors
record which exception class (and, where two distinct ValueError messages
matter, which message) is raised.
-/
inductive Sc where
  | str (s : String)
  | int (n : Int)
  | fl (num : Int) (exp : Nat)
  | bool (b : Bool)
  | null
deriving DecidableEq, Repr

inductive Doc where
  | sc (s : Sc)
  | list (xs : List Doc)
  | map (es : List (String × Doc))
deriving Repr

/-- Python exceptions raised by the config.py code paths we model.
valueErrorNoExist is ValueError "... does not exist in config!",
valueErrorNotAList is ValueError "... is not a list",
valueErrorNotInList is ValueError "list.remove(x): x not in list",
systemExit is sys.exit(1).  recursionError marks exhaustion of the fuel that
bounds the (always terminating) Python recursion in remove_empty_configs and
deepcopy; it is never reached with the fuel our top-level wrappers supply.
detachedAlias marks the one state remove_empty_configs can only reach through
a detached alias (see the comment there); it is unreachable from
unset_item_from_config. -/
inductive PyErr where
  | typeError
  | keyError (k : String)
  | attributeError
  | valueErrorNoExist
  | valueErrorNotAList
  | valueErrorNotInList
  | systemExit
  | recursionError
  | detachedAlias
deriving DecidableEq, Repr

/-! Character-level string utilities.  String.splitOn and friends do not reduce
in the kernel, so we model Python str.split(".") and the in operator on
strings directly on character lists. -/
/-- Python s.split(sep) for a single-character separator (always returns at
least one group; "".split(".") is [""]). -/
def splitChars (sep : Char) : List Char → List (List Char)
  | [] => [[]]
  | c :: rest =>
    match splitChars sep rest with
    | [] => [[c]]
    | g :: gs => if c = sep then [] :: g :: gs else (c :: g) :: gs

/-- property_path.split(".") from the Python code. -/
def pySplitDot (s : String) : List String :=
  (splitChars '.' s.toList).map fun cs => String.mk cs

def charsPre : List Char → List Char → Bool
  | [], _ => true
  | _ :: _, [] => false
  | a :: as1, b :: bs => a = b && charsPre as1 bs

/-- Python needle in haystack for strings (substring containment). -/
def charsSub (n : List Char) : List Char → Bool
  | [] => charsPre n []
  | c :: t => charsPre n (c :: t) || charsSub n t

/-! Python dynamic-type tests and operators, on Doc values. -/
/-- isinstance(item, collections.abc.Mapping) (config.py lines 337-338). -/
def _is_dict : Doc → Bool
  | .map _ => true
  | _ => false

/-- isinstance(item, collections.abc.Sequence) (config.py lines 341-342).
Note that Python str is registered as a Sequence, so strings pass this test. -/
def _is_list : Doc → Bool
  | .list _ => true
  | .sc (.str _) => true
  | _ => false

/-- Python x == {} : true exactly for an empty dict. -/
def isEmptyMap : Doc → Bool
  | .map [] => true
  | _ => false

/-- Python k in x.  Dict: key test.  String: substring test.  List: equality
with an element (a string key equals only an equal string element).  Other
scalars are not iterable: TypeError. -/
def pyIn (k : String) : Doc → Except PyErr Bool
  | .map es => .ok (ahas es k)
  | .sc (.str s) => .ok (charsSub k.toList s.toList)
  | .list xs =>
    .ok (xs.any fun x => match x with
      | .sc (.str s) => s = k
      | _ => false)
  | .sc _ => .error .typeError

/-- Python x[k] for a string key k.  Dict: lookup (KeyError when absent).
Strings and lists require integer indices: TypeError.  Other scalars are not
subscriptable: TypeError. -/
def pyGetItem : Doc → String → Except PyErr Doc
  | .map es, k =>
    match alookup es k with
    | some v => .ok v
    | none => .error (.keyError k)
  | _, _ => .error .typeError

/-- Python x[k] = v : item assignment is only supported by dicts here. -/
def pySetItem : Doc → String → Doc → Except PyErr Doc
  | .map es, k, v => .ok (.map (aset es k v))
  | _, _, _ => .error .typeError

/-- Python del x[k] : item deletion is only supported by dicts here. -/
def pyDelItem : Doc → String → Except PyErr Doc
  | .map es, k =>
    match alookup es k with
    | some _ => .ok (.map (aerase es k))
    | none => .error (.keyError k)
  | _, _ => .error .typeError

/-! Python == on document values.  Scalars: numeric types compare by value
(True == 1, 3.0 == 3); lists pairwise; dicts by key set and values, insertion
order irrelevant (the dict comparison below is the Python one on
duplicate-free maps, the only ones a real document contains). -/
/-- Python == across the scalar types.  A float num/10^exp equals an integer m
iff num = m * 10^exp, and floats compare by cross-multiplied mantissas, which
is exact decimal-value equality (and agrees with normalised-pair equality). -/
def scPyEq : Sc → Sc → Bool
  | .str a, .str b => a = b
  | .int a, .int b => a = b
  | .bool a, .bool b => a = b
  | .fl n1 e1, .fl n2 e2 => n1 * (10 : Int) ^ e2 = n2 * (10 : Int) ^ e1
  | .null, .null => true
  | .bool a, .int b => (if a then (1 : Int) else 0) = b
  | .int a, .bool b => a = (if b then (1 : Int) else 0)
  | .fl n e, .int b => n = b * (10 : Int) ^ e
  | .int a, .fl n e => n = a * (10 : Int) ^ e
  | .fl n e, .bool b => n = (if b then (1 : Int) else 0) * (10 : Int) ^ e
  | .bool a, .fl n e => n = (if a then (1 : Int) else 0) * (10 : Int) ^ e
  | _, _ => false

mutual

def pyEq : Doc → Doc → Bool
  | .sc a, .sc b => scPyEq a b
  | .list xs, .list ys => pyEqList xs ys
  | .map es, .map fs => es.length = fs.length && pyEqAssoc es fs
  | _, _ => false

def pyEqList : List Doc → List Doc → Bool
  | [], [] => true
  | x :: xs, y :: ys => pyEq x y && pyEqList xs ys
  | _, _ => false

def pyEqAssoc : List (String × Doc) → List (String × Doc) → Bool
  | [], _ => true
  | (k, v) :: rest, fs =>
    (match alookup fs k with
     | some w => pyEq v w
     | none => false) && pyEqAssoc rest fs

end

/-- Python list.remove(value): drop the first element comparing equal to
value, or report that no element does. -/
def removeFirstPy (v : Doc) : List Doc → Option (List Doc)
  | [] => none
  | x :: xs =>
    if pyEq x v then some xs
    else (removeFirstPy v xs).map fun ys => x :: ys

/-! The Mutation Engine: translations of the four operations of
src/tljh/config.py.  Python mutates a deepcopy of its input in place while
walking it; on the tree values a document denotes, that walk-and-mutate is the
recursive rebuild written here (the heap-level translation further below keeps
the in-place mutation and the deepcopy literally, and is used for the
no-mutation claim).  Each Python loop over path_components becomes a recursion
over the remaining components. -/
/-- Loop body of set_item_in_config (config.py lines 68-78), acting on the
subtree cur_part with the remaining path components.  The final component is
assigned; an intermediate component is replaced by a fresh empty dict whenever
it is absent or does not hold a dict, and is then descended into.  Every
branch on a non-dict cur_part ends in the TypeError Python raises there
(membership on a non-iterable, indexing or item assignment on str or list). -/
def setLoop : Doc → List String → Doc → Except PyErr Doc
  | cur_part, [], _ => .ok cur_part
  | cur_part, [cur_path], value => pySetItem cur_part cur_path value
  | cur_part, cur_path :: c2 :: rest, value =>
    match pyIn cur_path cur_part with
    | .error e => .error e
    | .ok mem =>
      match
        (if mem then
          match pyGetItem cur_part cur_path with
          | .error e => .error e
          | .ok c => .ok (!(_is_dict c))
        else .ok true : Except PyErr Bool) with
      | .error e => .error e
      | .ok true =>
        -- cur_part[cur_path] = {} ; cur_part = cur_part[cur_path]
        match cur_part with
        | .map m =>
          match setLoop (.map []) (c2 :: rest) value with
          | .ok child2 => .ok (.map (aset m cur_path child2))
          | .error e => .error e
        | _ => .error .typeError
      | .ok false =>
        -- cur_part = cur_part[cur_path] (an existing dict)
        match cur_part with
        | .map m =>
          match alookup m cur_path with
          | some c =>
            match setLoop c (c2 :: rest) value with
            | .ok child2 => .ok (.map (aset m cur_path child2))
            | .error e => .error e
          | none => .error (.keyError cur_path)  -- unreachable: mem holds on a dict
        | _ => .error .typeError                 -- unreachable: pyGetItem succeeded

/-- set_item_in_config (config.py lines 55-80). -/
def set_item_in_config (config : Doc) (property_path : String) (value : Doc) :
    Except PyErr Doc :=
  setLoop config (pySplitDot property_path) value

/-- Walk-and-delete phase of unset_item_from_config (config.py lines 113-119):
membership is checked at every component (with Python's membership semantics,
including substring containment when the current node is a string), the final
component is deleted with del. -/
def unsetLoop : Doc → List String → Except PyErr Doc
  | cur_part, [] => .ok cur_part
  | cur_part, [cur_path] =>
    match pyIn cur_path cur_part with
    | .error e => .error e
    | .ok false => .error .valueErrorNoExist
    | .ok true => pyDelItem cur_part cur_path
  | cur_part, cur_path :: c2 :: rest =>
    match pyIn cur_path cur_part with
    | .error e => .error e
    | .ok false => .error .valueErrorNoExist
    | .ok true =>
      match pyGetItem cur_part cur_path with
      | .error e => .error e
      | .ok c =>
        match unsetLoop c (c2 :: rest) with
        | .error e => .error e
        | .ok c2new =>
          match cur_part with
          | .map m => .ok (.map (aset m cur_path c2new))
          | _ => .error .typeError  -- unreachable: pyGetItem succeeded on a dict

/-- Subtree of a document at a path of mapping keys. -/
def nodeAt : Doc → List String → Option Doc
  | d, [] => some d
  | .map es, k :: rest =>
    match alookup es k with
    | some c => nodeAt c rest
    | none => none
  | _, _ :: _ => none

/-- Rebuild a document with the mapping entries at the given path transformed
(identity when the path does not address a mapping). -/
def modifyAt : Doc → List String → (List (String × Doc) → List (String × Doc)) → Doc
  | d, [], f =>
    match d with
    | .map es => .map (f es)
    | _ => d
  | d, k :: rest, f =>
    match d with
    | .map es =>
      match alookup es k with
      | some c => .map (aset es k (modifyAt c rest f))
      | none => d
    | _ => d

/-- Loop body of remove_empty_configs (config.py lines 96-111).  conf_iter is
an alias into configuration; we track it as the path pre of the node it sits
at.  The recursive call is passed in as g (it is remove_empty_configs on one
fuel less, applied to path[:-1] of the full path).  After a deletion the
Python loop keeps iterating with conf_iter unchanged; from
unset_item_from_config a deletion only ever happens at the last loop position
(proved below for resolvable paths), so the continuation after the recursive
call is the empty-rest case and the detachedAlias fallback (conf_iter's object
no longer reachable from the root after the recursive call) cannot be
reached. -/
def rmeLoop (g : Doc → List String → Except PyErr Doc) (full : List String) :
    Doc → List String → List String → Except PyErr Doc
  | conf, _, [] => .ok conf
  | conf, pre, k :: rest =>
    match nodeAt conf pre with
    | none => .error .detachedAlias
    | some confIter =>
      match confIter with
      | .map m =>
        match alookup m k with
        | none => .error (.keyError k)
        | some child =>
          if isEmptyMap child then
            -- del conf_iter[cur_path]; remove_empty_configs(configuration, path[:-1])
            match g (modifyAt conf pre fun es => aerase es k) full.dropLast with
            | .error e => .error e
            | .ok conf2 => rmeLoop g full conf2 pre rest
          else
            rmeLoop g full conf (pre ++ [k]) rest
      | _ => .error .typeError

/-- remove_empty_configs (config.py lines 96-111), with a fuel bounding the
recursion depth (the Python recursion always terminates because the path
shrinks; unset_item_from_config passes enough fuel, which the theorems below
confirm by never producing recursionError). -/
def remove_empty_configs : Nat → Doc → List String → Except PyErr Doc
  | 0, _, _ => .error .recursionError
  | fuel + 1, configuration, path =>
    if path.isEmpty then .ok configuration
    else rmeLoop (remove_empty_configs fuel) path configuration [] path

/-- unset_item_from_config (config.py lines 83-125). -/
def unset_item_from_config (config : Doc) (property_path : String) :
    Except PyErr Doc :=
  match unsetLoop config (pySplitDot property_path) with
  | .error e => .error e
  | .ok c1 =>
    remove_empty_configs (pySplitDot property_path).length c1
      (pySplitDot property_path).dropLast

/-- Loop body of add_item_to_config (config.py lines 136-149).  Intermediate
components behave exactly as in set_item_in_config.  At the final component,
when the key is absent or its value fails the Sequence test, a fresh empty
list is assigned first; then value is appended to cur_part[cur_path].  A
string passes the Sequence test but has no append: AttributeError. -/
def addLoop : Doc → List String → Doc → Except PyErr Doc
  | cur_part, [], _ => .ok cur_part
  | cur_part, [cur_path], value =>
    match pyIn cur_path cur_part with
    | .error e => .error e
    | .ok mem =>
      match
        (if mem then
          match pyGetItem cur_part cur_path with
          | .error e => .error e
          | .ok c => .ok (!(_is_list c))
        else .ok true : Except PyErr Bool) with
      | .error e => .error e
      | .ok true =>
        -- cur_part[cur_path] = [] ; cur_part = cur_part[cur_path] ; append
        match cur_part with
        | .map m => .ok (.map (aset m cur_path (.list [value])))
        | _ => .error .typeError
      | .ok false =>
        match pyGetItem cur_part cur_path with
        | .error e => .error e
        | .ok c =>
          match c with
          | .list xs =>
            match cur_part with
            | .map m => .ok (.map (aset m cur_path (.list (xs ++ [value]))))
            | _ => .error .typeError  -- unreachable: pyGetItem succeeded
          | _ => .error .attributeError  -- a str passed _is_list; str has no append
  | cur_part, cur_path :: c2 :: rest, value =>
    match pyIn cur_path cur_part with
    | .error e => .error e
    | .ok mem =>
      match
        (if mem then
          match pyGetItem cur_part cur_path with
          | .error e => .error e
          | .ok c => .ok (!(_is_dict c))
        else .ok true : Except PyErr Bool) with
      | .error e => .error e
      | .ok true =>
        match cur_part with
        | .map m =>
          match addLoop (.map []) (c2 :: rest) value with
          | .ok child2 => .ok (.map (aset m cur_path child2))
          | .error e => .error e
        | _ => .error .typeError
      | .ok false =>
        match cur_part with
        | .map m =>
          match alookup m cur_path with
          | some c =>
            match addLoop c (c2 :: rest) value with
            | .ok child2 => .ok (.map (aset m cur_path child2))
            | .error e => .error e
          | none => .error (.keyError cur_path)
        | _ => .error .typeError

/-- add_item_to_config (config.py lines 128-151). -/
def add_item_to_config (config : Doc) (property_path : String) (value : Doc) :
    Except PyErr Doc :=
  addLoop config (pySplitDot property_path) value

/-- Loop body of remove_item_from_config (config.py lines 162-172).  An
intermediate component that is absent or does not hold a dict raises
ValueError "... does not exist in config!"; a final component that is absent
or fails the Sequence test raises ValueError "... is not a list"; otherwise
cur_part.remove(value) removes the first element equal (by Python ==) to
value, raising ValueError "list.remove(x): x not in list" when none is.  A
string at the final component passes the Sequence test but has no remove:
AttributeError. -/
def removeLoop : Doc → List String → Doc → Except PyErr Doc
  | cur_part, [], _ => .ok cur_part
  | cur_part, [cur_path], value =>
    match pyIn cur_path cur_part with
    | .error e => .error e
    | .ok false => .error .valueErrorNotAList
    | .ok true =>
      match pyGetItem cur_part cur_path with
      | .error e => .error e
      | .ok c =>
        if _is_list c then
          match c with
          | .list xs =>
            match removeFirstPy value xs with
            | some ys =>
              match cur_part with
              | .map m => .ok (.map (aset m cur_path (.list ys)))
              | _ => .error .typeError  -- unreachable: pyGetItem succeeded
            | none => .error .valueErrorNotInList
          | _ => .error .attributeError  -- a str passed _is_list; str has no remove
        else .error .valueErrorNotAList
  | cur_part, cur_path :: c2 :: rest, value =>
    match pyIn cur_path cur_part with
    | .error e => .error e
    | .ok false => .error .valueErrorNoExist
    | .ok true =>
      match pyGetItem cur_part cur_path with
      | .error e => .error e
      | .ok c =>
        if _is_dict c then
          match removeLoop c (c2 :: rest) value with
          | .ok child2 =>
            match cur_part with
            | .map m => .ok (.map (aset m cur_path child2))
            | _ => .error .typeError  -- unreachable: pyGetItem succeeded
          | .error e => .error e
        else .error .valueErrorNoExist

/-- remove_item_from_config (config.py lines 154-174). -/
def remove_item_from_config (config : Doc) (property_path : String) (value : Doc) :
    Except PyErr Doc :=
  removeLoop config (pySplitDot property_path) value

/-! parse_value (config.py lines 320-334).  The regexes are re.match with ^
and $ anchors; a $ anchor also matches just before one newline at the very end
of the input, and int()/float() accept that trailing newline.  Digits are
modelled as ASCII digits (Python \d also accepts other Unicode decimal digits;
no claim involves them). -/
def digitsToNat (cs : List Char) : Nat :=
  cs.foldl (fun acc c => acc * 10 + (c.toNat - 48)) 0

/-- Trailing-newline tolerance of the $ anchor in re.match. -/
def reDollar (core : List Char → Bool) (cs : List Char) : Bool :=
  core cs || (cs.getLast? = some (Char.ofNat 10) && core cs.dropLast)

/-- Drop the single trailing newline the $ anchor tolerates, as int() and
float() do when converting the matched string. -/
def stripNL (cs : List Char) : List Char :=
  if cs.getLast? = some (Char.ofNat 10) then cs.dropLast else cs

/-- Body of the regex digits-plus: one or more digits. -/
def digitsCore (cs : List Char) : Bool :=
  !cs.isEmpty && cs.all Char.isDigit

/-- Body of the float regex: digits, a dot, zero or more digits, matched the
way re does (maximal digit prefix, then the dot). -/
def floatCore (cs : List Char) : Bool :=
  !(cs.takeWhile Char.isDigit).isEmpty &&
    match cs.dropWhile Char.isDigit with
    | '.' :: fr => fr.all Char.isDigit
    | _ => false

/-- Python float() of a matched digits.digits literal, as an exact normalised
decimal: strip trailing zeros of the fraction, then mantissa and exponent. -/
def pyFloatOfChars (cs : List Char) : Sc :=
  match cs.dropWhile Char.isDigit with
  | '.' :: fr =>
    let fr2 := (fr.reverse.dropWhile fun c => c = '0').reverse
    .fl (Int.ofNat (digitsToNat (cs.takeWhile Char.isDigit ++ fr2))) fr2.length
  | _ => .int (Int.ofNat (digitsToNat (cs.takeWhile Char.isDigit)))

/-- Python str.lower(). -/
def pyLower (s : String) : String :=
  String.mk (s.toList.map Char.toLower)

/-- parse_value (config.py lines 320-334) on a string argument (the CLI always
passes a string; the None passthrough at line 322-323 is not modelled). -/
def parse_value (value_str : String) : Doc :=
  let cs := value_str.toList
  if reDollar digitsCore cs then .sc (.int (Int.ofNat (digitsToNat (stripNL cs))))
  else if reDollar floatCore cs then .sc (pyFloatOfChars (stripNL cs))
  else if pyLower value_str = "true" then .sc (.bool true)
  else if pyLower value_str = "false" then .sc (.bool false)
  else .sc (.str value_str)

/-- validate_config (config.py lines 177-195).  The jsonschema library and the
config_schema module are outside src/; the outcome of
jsonschema.validate(instance=config, schema=config_schema) is abstracted as
the parameter validationError (some message when it raises ValidationError,
none when the document conforms).  The first component of the result records
that the schema check was executed: the function always invokes
jsonschema.validate, whatever the validate flag says; the flag only decides
whether a ValidationError is turned into sys.exit(1) or swallowed. -/
def validate_config (validationError : Option String) (validate : Bool) :
    Bool × Except PyErr Unit :=
  (true,
   match validationError with
   | some _ => if validate then .error .systemExit else .ok ()
   | none => .ok ())

/-! Specification-side functions, written from the spec's words, to be related
to the code translations above. -/
/-- Every segment of the path exists: each intermediate segment addresses a
mapping that contains the next segment, and the final segment is a key of its
parent mapping (with any value). -/
def resolvable : Doc → List String → Bool
  | .map m, [k] => ahas m k
  | .map m, k :: c2 :: rest =>
    match alookup m k with
    | some c => resolvable c (c2 :: rest)
    | none => false
  | _, _ => false

/-- The ancestor chain exists as mappings: each listed segment addresses a
mapping child of the current mapping. -/
def chainOK : Doc → List String → Bool
  | _, [] => true
  | .map m, k :: rest =>
    match alookup m k with
    | some (.map m2) => chainOK (.map m2) rest
    | _ => false
  | _, _ :: _ => false

/-- Delete the key addressed by the path (identity off mapping chains). -/
def delLast : Doc → List String → Doc
  | d, [] => d
  | .map m, [k] => .map (aerase m k)
  | .map m, k :: c2 :: rest =>
    match alookup m k with
    | some c => .map (aset m k (delLast c (c2 :: rest)))
    | none => .map m
  | d, _ :: _ => d

/-- Spec 4.2, unset, pruning phase: walks back up the ancestor chain,
"removing any now-empty mapping node and recursing upward".  Top-down
formulation: prune below, then remove the child key if its node has become an
empty mapping. -/
def pruneBU : Doc → List String → Doc
  | d, [] => d
  | .map m, k :: rest =>
    match alookup m k with
    | some c =>
      let c2 := pruneBU c rest
      if isEmptyMap c2 then .map (aerase m k) else .map (aset m k c2)
    | none => .map m
  | d, _ :: _ => d

/-- Spec 4.2, unset, in one piece: "Deletes the final key.  After deletion,
walks back up the ancestor chain from the parent to the root, removing any
now-empty mapping node and recursing upward — i.e., empty mapping nodes left
behind by the deletion are pruned all the way up". -/
def specUnsetPrune : Doc → List String → Doc
  | d, [] => d
  | .map m, [k] => .map (aerase m k)
  | .map m, k :: c2 :: rest =>
    match alookup m k with
    | some c =>
      let c3 := specUnsetPrune c (c2 :: rest)
      if isEmptyMap c3 then .map (aerase m k) else .map (aset m k c3)
    | none => .map m
  | d, _ :: _ => d

/-- Spec 4.2, set: "walks all but the last segment, creating/overwriting
intermediate nodes with empty mappings whenever the existing node at that
segment is absent or not a mapping; sets the final segment to value". -/
def setSpec : Doc → List String → Doc → Doc
  | d, [], _ => d
  | .map m, [k], v => .map (aset m k v)
  | .map m, k :: c2 :: rest, v =>
    let c := match alookup m k with
      | some (.map m2) => Doc.map m2
      | _ => Doc.map []
    .map (aset m k (setSpec c (c2 :: rest) v))
  | d, _ :: _, _ => d

/-- Amended spec for add_item at Python type granularity: like set for
intermediate segments; at the final segment, a missing key or a value that is
neither a list nor a string is replaced by a fresh list which value then
extends; an existing list is appended to; an existing string passes the
code's Sequence test and the append then fails with AttributeError. -/
def addSpec : Doc → List String → Doc → Except PyErr Doc
  | d, [], _ => .ok d
  | .map m, [k], v =>
    match alookup m k with
    | some (.list xs) => .ok (.map (aset m k (.list (xs ++ [v]))))
    | some (.sc (.str _)) => .error .attributeError
    | _ => .ok (.map (aset m k (.list [v])))
  | .map m, k :: c2 :: rest, v =>
    let c := match alookup m k with
      | some (.map m2) => Doc.map m2
      | _ => Doc.map []
    match addSpec c (c2 :: rest) v with
    | .ok c3 => .ok (.map (aset m k c3))
    | .error e => .error e
  | _, _ :: _, _ => .error .typeError

/-- Replace the node addressed by the path (identity off mapping chains). -/
def putAt : Doc → List String → Doc → Doc
  | d, [], _ => d
  | .map m, [k], v => .map (aset m k v)
  | .map m, k :: c2 :: rest, v =>
    match alookup m k with
    | some c => .map (aset m k (putAt c (c2 :: rest) v))
    | none => .map m
  | d, _ :: _, _ => d

/-- The child selected (or freshly created) at an intermediate set/add
segment: the existing dict child, or a fresh empty dict when the key is absent
or its value is not a dict. -/
def setChild (m : List (String × Doc)) (k : String) : Doc :=
  match alookup m k with
  | some (.map m2) => .map m2
  | _ => .map []

/-- The path addresses a mapping node. -/
def isMapAt (D : Doc) (Q : List String) : Bool :=
  match nodeAt D Q with
  | some (.map _) => true
  | _ => false

/-! C9: spec-side classification of CLI value strings, written as the grammar
of the amended claim (one or more digits; digits then a dot then optional
digits), to be compared with the regex-engine-style translation in
parse_value. -/
/-- One or more digits. -/
def intShape : List Char → Bool
  | [] => false
  | [c] => c.isDigit
  | c :: c2 :: rest => c.isDigit && intShape (c2 :: rest)

/-- After the leading digits: optionally more digits, then a dot, then zero
or more digits. -/
def floatTail : List Char → Bool
  | [] => false
  | c :: rest => if c = '.' then rest.all Char.isDigit else c.isDigit && floatTail rest

/-- One or more digits, a dot, zero or more digits. -/
def floatShape : List Char → Bool
  | [] => false
  | c :: rest => c.isDigit && floatTail rest

/-- The amended coercion specification: strip the single trailing newline the
regex end anchor tolerates, then classify by shape; non-numeric strings are
checked against true/false case-insensitively and otherwise returned as
themselves.  The numeric conversions int() and float() are the shared
builtins. -/
def coerceSpec (s : String) : Doc :=
  let cs := stripNL s.toList
  if intShape cs then .sc (.int (Int.ofNat (digitsToNat cs)))
  else if floatShape cs then .sc (pyFloatOfChars cs)
  else if pyLower s = "true" then .sc (.bool true)
  else if pyLower s = "false" then .sc (.bool false)
  else .sc (.str s)

/-! Heap-level model, for the frame claim that the four mutation operations
never change the caller's document.  Python objects live in a heap; a document
is whatever is reachable from a root address.  The heap is a list of nodes
indexed by address; list and mapping nodes hold addresses of their children.
Writes to an address model in-place mutation of that object; allocation
appends.  deepcopy is modelled as materialising the (tree-shaped) document at
the root and rebuilding it from freshly allocated nodes — for the frame
property the only facts that matter are that the copy allocates fresh
addresses and that its nodes reference only fresh addresses, which also hold
of the memoised copy the copy module builds. -/
inductive Node where
  | sc (s : Sc)
  | list (elems : List Nat)
  | map (es : List (String × Nat))
deriving DecidableEq, Repr

abbrev Heap := List Node

/-- Dereference; out-of-range addresses (never produced by the modelled code)
default to None. -/
def hread (H : Heap) (a : Nat) : Node := H.getD a (.sc .null)

/-- In-place mutation of the object at an address. -/
def hwrite (H : Heap) (a : Nat) (n : Node) : Heap := H.set a n

def readList (f : Nat → Option Doc) : List Nat → Option (List Doc)
  | [] => some []
  | a :: rest =>
    match f a with
    | none => none
    | some d =>
      match readList f rest with
      | none => none
      | some ds => some (d :: ds)

def readAssoc (f : Nat → Option Doc) : List (String × Nat) → Option (List (String × Doc))
  | [] => some []
  | (k, a) :: rest =>
    match f a with
    | none => none
    | some d =>
      match readAssoc f rest with
      | none => none
      | some ds => some ((k, d) :: ds)

/-- The document value at an address (fuel-bounded; none on a dangling
reference or exhausted fuel). -/
def readDoc : Nat → Heap → Nat → Option Doc
  | 0, _, _ => none
  | fuel + 1, H, a =>
    match H.get? a with
    | none => none
    | some (.sc s) => some (.sc s)
    | some (.list elems) => (readList (readDoc fuel H) elems).map .list
    | some (.map es) => (readAssoc (readDoc fuel H) es).map .map

mutual

def allocDoc : Doc → Heap → Heap × Nat
  | .sc s, H => (H ++ [.sc s], H.length)
  | .list xs, H =>
    match allocList xs H with
    | (H1, as1) => (H1 ++ [.list as1], H1.length)
  | .map es, H =>
    match allocAssoc es H with
    | (H1, fs) => (H1 ++ [.map fs], H1.length)

def allocList : List Doc → Heap → Heap × List Nat
  | [], H => (H, [])
  | d :: ds, H =>
    match allocDoc d H with
    | (H1, a) =>
      match allocList ds H1 with
      | (H2, as1) => (H2, a :: as1)

def allocAssoc : List (String × Doc) → Heap → Heap × List (String × Nat)
  | [], H => (H, [])
  | (k, d) :: ds, H =>
    match allocDoc d H with
    | (H1, a) =>
      match allocAssoc ds H1 with
      | (H2, fs) => (H2, (k, a) :: fs)

end

mutual

/-- Height bound of a document: enough readDoc fuel to materialise it. -/
def ddepth : Doc → Nat
  | .sc _ => 1
  | .list xs => ldepth xs + 1
  | .map es => adepth es + 1

def ldepth : List Doc → Nat
  | [] => 0
  | d :: ds => max (ddepth d) (ldepth ds)

def adepth : List (String × Doc) → Nat
  | [] => 0
  | (_, d) :: ds => max (ddepth d) (adepth ds)

end

def nodeIsDict : Node → Bool
  | .map _ => true
  | _ => false

def nodeIsList : Node → Bool
  | .list _ => true
  | .sc (.str _) => true
  | _ => false

def nodeIsEmptyMap : Node → Bool
  | .map [] => true
  | _ => false

/-- Python k in x at heap level (see pyIn). -/
def hpyIn (H : Heap) (k : String) : Node → Except PyErr Bool
  | .map es => .ok (ahas es k)
  | .sc (.str s) => .ok (charsSub k.toList s.toList)
  | .list elems =>
    .ok (elems.any fun a =>
      match hread H a with
      | .sc (.str s) => s = k
      | _ => false)
  | .sc _ => .error .typeError

/-- Heap-level loop of set_item_in_config: cur_part is an address, writes
mutate the heap. -/
def setLoopH : Heap → Nat → List String → Nat → Heap × Except PyErr Unit
  | H, _, [], _ => (H, .ok ())
  | H, a, [k], v =>
    match hread H a with
    | .map es => (hwrite H a (.map (aset es k v)), .ok ())
    | _ => (H, .error .typeError)
  | H, a, k :: c2 :: rest, v =>
    match hpyIn H k (hread H a) with
    | .error e => (H, .error e)
    | .ok mem =>
      match
        (if mem then
          match hread H a with
          | .map es =>
            match alookup es k with
            | some c => Except.ok (!(nodeIsDict (hread H c)))
            | none => Except.error (.keyError k)
          | _ => Except.error .typeError
        else Except.ok true : Except PyErr Bool) with
      | .error e => (H, .error e)
      | .ok true =>
        match hread H a with
        | .map es =>
          setLoopH ((H ++ [Node.map []]).set a (.map (aset es k H.length)))
            H.length (c2 :: rest) v
        | _ => (H, .error .typeError)
      | .ok false =>
        match hread H a with
        | .map es =>
          match alookup es k with
          | some c => setLoopH H c (c2 :: rest) v
          | none => (H, .error (.keyError k))
        | _ => (H, .error .typeError)

/-- Heap-level loop of remove_empty_configs; conf_iter is the address ci and
aliasing behaves exactly as in Python. -/
def rmeLoopH (g : Heap → List String → Heap × Except PyErr Unit)
    (full : List String) :
    Heap → Nat → List String → Heap × Except PyErr Unit
  | H, _, [] => (H, .ok ())
  | H, ci, k :: rest =>
    match hread H ci with
    | .map es =>
      match alookup es k with
      | none => (H, .error (.keyError k))
      | some c =>
        if nodeIsEmptyMap (hread H c) then
          match g (hwrite H ci (.map (aerase es k))) full.dropLast with
          | (H2, .error e) => (H2, .error e)
          | (H2, .ok _) => rmeLoopH g full H2 ci rest
        else rmeLoopH g full H c rest
    | _ => (H, .error .typeError)

/-- Heap-level remove_empty_configs. -/
def rmeH : Nat → Heap → Nat → List String → Heap × Except PyErr Unit
  | 0, H, _, _ => (H, .error .recursionError)
  | fuel + 1, H, root, path =>
    if path.isEmpty then (H, .ok ())
    else rmeLoopH (fun H2 p => rmeH fuel H2 root p) path H root path

/-- Heap-level loop of unset_item_from_config. -/
def unsetLoopH (root : Nat) (full : List String) :
    Heap → Nat → List String → Heap × Except PyErr Unit
  | H, _, [] => (H, .ok ())
  | H, a, [k] =>
    match hpyIn H k (hread H a) with
    | .error e => (H, .error e)
    | .ok false => (H, .error .valueErrorNoExist)
    | .ok true =>
      match hread H a with
      | .map es =>
        match alookup es k with
        | some _ => rmeH full.length (hwrite H a (.map (aerase es k))) root full.dropLast
        | none => (H, .error (.keyError k))
      | _ => (H, .error .typeError)
  | H, a, k :: c2 :: rest =>
    match hpyIn H k (hread H a) with
    | .error e => (H, .error e)
    | .ok false => (H, .error .valueErrorNoExist)
    | .ok true =>
      match hread H a with
      | .map es =>
        match alookup es k with
        | some c => unsetLoopH root full H c (c2 :: rest)
        | none => (H, .error (.keyError k))
      | _ => (H, .error .typeError)

/-- Heap-level loop of add_item_to_config. -/
def addLoopH : Heap → Nat → List String → Nat → Heap × Except PyErr Unit
  | H, _, [], _ => (H, .ok ())
  | H, a, [k], v =>
    match hpyIn H k (hread H a) with
    | .error e => (H, .error e)
    | .ok mem =>
      match
        (if mem then
          match hread H a with
          | .map es =>
            match alookup es k with
            | some c => Except.ok (!(nodeIsList (hread H c)))
            | none => Except.error (.keyError k)
          | _ => Except.error .typeError
        else Except.ok true : Except PyErr Bool) with
      | .error e => (H, .error e)
      | .ok true =>
        -- cur_part[cur_path] = []; cur_part = cur_part[cur_path]; append
        match hread H a with
        | .map es =>
          match hread ((H ++ [Node.list []]).set a (.map (aset es k H.length))) H.length with
          | .list xs =>
            (((H ++ [Node.list []]).set a (.map (aset es k H.length))).set H.length
              (.list (xs ++ [v])), .ok ())
          | _ => ((H ++ [Node.list []]).set a (.map (aset es k H.length)),
              .error .attributeError)
        | _ => (H, .error .typeError)
      | .ok false =>
        match hread H a with
        | .map es =>
          match alookup es k with
          | some c =>
            match hread H c with
            | .list xs => (H.set c (.list (xs ++ [v])), .ok ())
            | _ => (H, .error .attributeError)  -- a str passed the Sequence test
          | none => (H, .error (.keyError k))
        | _ => (H, .error .typeError)
  | H, a, k :: c2 :: rest, v =>
    match hpyIn H k (hread H a) with
    | .error e => (H, .error e)
    | .ok mem =>
      match
        (if mem then
          match hread H a with
          | .map es =>
            match alookup es k with
            | some c => Except.ok (!(nodeIsDict (hread H c)))
            | none => Except.error (.keyError k)
          | _ => Except.error .typeError
        else Except.ok true : Except PyErr Bool) with
      | .error e => (H, .error e)
      | .ok true =>
        match hread H a with
        | .map es =>
          addLoopH ((H ++ [Node.map []]).set a (.map (aset es k H.length)))
            H.length (c2 :: rest) v
        | _ => (H, .error .typeError)
      | .ok false =>
        match hread H a with
        | .map es =>
          match alookup es k with
          | some c => addLoopH H c (c2 :: rest) v
          | none => (H, .error (.keyError k))
        | _ => (H, .error .typeError)

def zipAllOpt (f : Nat → Nat → Option Bool) : List Nat → List Nat → Option Bool
  | [], [] => some true
  | x :: xs, y :: ys =>
    match f x y with
    | none => none
    | some true => zipAllOpt f xs ys
    | some false => some false
  | _, _ => some false

def assocAllOpt (f : Nat → Nat → Option Bool) (fs : List (String × Nat)) :
    List (String × Nat) → Option Bool
  | [] => some true
  | (k, x) :: rest =>
    match alookup fs k with
    | none => some false
    | some y =>
      match f x y with
      | none => none
      | some true => assocAllOpt f fs rest
      | some false => some false

/-- Python == between heap objects (see pyEq); fuel-bounded, none models the
RecursionError of an unboundedly deep comparison. -/
def pyEqH : Nat → Heap → Nat → Nat → Option Bool
  | 0, _, _, _ => none
  | fuel + 1, H, x, y =>
    match hread H x, hread H y with
    | .sc a, .sc b => some (scPyEq a b)
    | .list xs, .list ys => zipAllOpt (pyEqH fuel H) xs ys
    | .map es, .map fs =>
      if es.length = fs.length then assocAllOpt (pyEqH fuel H) fs es else some false
    | _, _ => some false

/-- list.remove at heap level: index of nothing, the remaining element list,
or a fuel failure from the comparison. -/
def removeFirstH (f : Nat → Option Bool) : List Nat → Option (Option (List Nat))
  | [] => some none
  | x :: xs =>
    match f x with
    | none => none
    | some true => some (some xs)
    | some false =>
      match removeFirstH f xs with
      | none => none
      | some none => some none
      | some (some ys) => some (some (x :: ys))

/-- Heap-level loop of remove_item_from_config. -/
def removeLoopH (fuelEq : Nat) : Heap → Nat → List String → Nat → Heap × Except PyErr Unit
  | H, _, [], _ => (H, .ok ())
  | H, a, [k], v =>
    match hpyIn H k (hread H a) with
    | .error e => (H, .error e)
    | .ok false => (H, .error .valueErrorNotAList)
    | .ok true =>
      match hread H a with
      | .map es =>
        match alookup es k with
        | some c =>
          if nodeIsList (hread H c) then
            match hread H c with
            | .list xs =>
              match removeFirstH (fun x => pyEqH fuelEq H x v) xs with
              | none => (H, .error .recursionError)
              | some none => (H, .error .valueErrorNotInList)
              | some (some ys) => (H.set c (.list ys), .ok ())
            | _ => (H, .error .attributeError)  -- a str passed the Sequence test
          else (H, .error .valueErrorNotAList)
        | none => (H, .error (.keyError k))
      | _ => (H, .error .typeError)
  | H, a, k :: c2 :: rest, v =>
    match hpyIn H k (hread H a) with
    | .error e => (H, .error e)
    | .ok false => (H, .error .valueErrorNoExist)
    | .ok true =>
      match hread H a with
      | .map es =>
        match alookup es k with
        | some c =>
          if nodeIsDict (hread H c) then removeLoopH fuelEq H c (c2 :: rest) v
          else (H, .error .valueErrorNoExist)
        | none => (H, .error (.keyError k))
      | _ => (H, .error .typeError)

/-- Heap-level set_item_in_config: deepcopy the input document, mutate the
copy in place, return the copy's root. -/
def set_item_heap (fuel : Nat) (H : Heap) (a : Nat) (p : String) (v : Nat) :
    Heap × Except PyErr Nat :=
  match readDoc fuel H a with
  | none => (H, .error .recursionError)
  | some d =>
    ((setLoopH (allocDoc d H).1 (allocDoc d H).2 (pySplitDot p) v).1,
      (setLoopH (allocDoc d H).1 (allocDoc d H).2 (pySplitDot p) v).2.map
        fun _ => (allocDoc d H).2)

/-- Heap-level unset_item_from_config. -/
def unset_item_heap (fuel : Nat) (H : Heap) (a : Nat) (p : String) :
    Heap × Except PyErr Nat :=
  match readDoc fuel H a with
  | none => (H, .error .recursionError)
  | some d =>
    ((unsetLoopH (allocDoc d H).2 (pySplitDot p) (allocDoc d H).1 (allocDoc d H).2
        (pySplitDot p)).1,
      (unsetLoopH (allocDoc d H).2 (pySplitDot p) (allocDoc d H).1 (allocDoc d H).2
        (pySplitDot p)).2.map fun _ => (allocDoc d H).2)

/-- Heap-level add_item_to_config. -/
def add_item_heap (fuel : Nat) (H : Heap) (a : Nat) (p : String) (v : Nat) :
    Heap × Except PyErr Nat :=
  match readDoc fuel H a with
  | none => (H, .error .recursionError)
  | some d =>
    ((addLoopH (allocDoc d H).1 (allocDoc d H).2 (pySplitDot p) v).1,
      (addLoopH (allocDoc d H).1 (allocDoc d H).2 (pySplitDot p) v).2.map
        fun _ => (allocDoc d H).2)

/-- Heap-level remove_item_from_config. -/
def remove_item_heap (fuel : Nat) (H : Heap) (a : Nat) (p : String) (v : Nat) :
    Heap × Except PyErr Nat :=
  match readDoc fuel H a with
  | none => (H, .error .recursionError)
  | some d =>
    ((removeLoopH fuel (allocDoc d H).1 (allocDoc d H).2 (pySplitDot p) v).1,
      (removeLoopH fuel (allocDoc d H).1 (allocDoc d H).2 (pySplitDot p) v).2.map
        fun _ => (allocDoc d H).2)

/-! Frame infrastructure: the input document lives below the allocation
watermark L0 = H.length; the deepcopy and every subsequent mutation only
touch addresses at or above it. -/
/-- The heap below address L0 is unchanged. -/
def HKeep (L0 : Nat) (H H2 : Heap) : Prop :=
  ∀ j, j < L0 → H2.get? j = H.get? j

/-- Child addresses referenced by a node. -/
def nodeKids : Node → List Nat
  | .sc _ => []
  | .list elems => elems
  | .map es => es.map fun e => e.2

/-- Nodes at or above L0 only reference addresses at or above L0. -/
def RegionOK (L0 : Nat) (H : Heap) : Prop :=
  ∀ i, L0 ≤ i → ∀ c ∈ nodeKids (hread H i), L0 ≤ c

def freshOk (n : Nat) : Except PyErr Nat → Bool
  | .ok x => decide (n ≤ x)
  | .error _ => true

def C2H : Heap := [Node.sc (Sc.int 5), Node.map [("a", 0)]]

def C2D : Doc := Doc.map [("a", Doc.sc (Sc.int 5))]

section AssocOpsLemmas

variable {α : Type}

theorem alookup_aset_self (es : List (String × α)) (k : String) (v : α) :
    alookup (aset es k v) k = some v := by
  induction es with
  | nil => simp [aset, alookup]
  | cons e rest ih =>
    obtain ⟨k1, v1⟩ := e
    by_cases h : k1 = k <;> simp [aset, alookup, h, ih]

theorem aset_aset (es : List (String × α)) (k : String) (v w : α) :
    aset (aset es k v) k w = aset es k w := by
  induction es with
  | nil => simp [aset]
  | cons e rest ih =>
    obtain ⟨k1, v1⟩ := e
    by_cases h : k1 = k <;> simp [aset, h, ih]

theorem aset_self (es : List (String × α)) (k : String) (v : α)
    (h : alookup es k = some v) : aset es k v = es := by
  induction es with
  | nil => simp [alookup] at h
  | cons e rest ih =>
    obtain ⟨k1, v1⟩ := e
    by_cases hk : k1 = k
    · simp [alookup, hk] at h
      simp [aset, hk, h]
    · simp [alookup, hk] at h
      simp [aset, hk, ih h]

theorem aerase_aset (es : List (String × α)) (k : String) (v : α) :
    aerase (aset es k v) k = aerase es k := by
  induction es with
  | nil => simp [aset, aerase]
  | cons e rest ih =>
    obtain ⟨k1, v1⟩ := e
    by_cases h : k1 = k <;>
      simp_all [aset, aerase, List.filter]

theorem alookup_aerase_self (es : List (String × α)) (k : String) :
    alookup (aerase es k) k = none := by
  induction es with
  | nil => simp [aerase, alookup]
  | cons e rest ih =>
    obtain ⟨k1, v1⟩ := e
    by_cases h : k1 = k <;> simp_all [aerase, alookup, List.filter]

theorem ahas_aset (es : List (String × α)) (k : String) (v : α) :
    ahas (aset es k v) k = true := by
  simp [ahas, alookup_aset_self]

end AssocOpsLemmas

theorem splitChars_ne_nil (sep : Char) (cs : List Char) : splitChars sep cs ≠ [] := by
  cases cs with
  | nil => simp [splitChars]
  | cons c rest =>
    simp only [splitChars]
    cases h : splitChars sep rest with
    | nil => simp
    | cons g gs =>
      by_cases hc : c = sep <;> simp [hc]

theorem pySplitDot_ne_nil (s : String) : pySplitDot s ≠ [] := by
  simp [pySplitDot, splitChars_ne_nil]

/-! Path lemmas used to relate the unset implementation to the spec-side
pruning function. -/
theorem nodeAt_append : ∀ (p q : List String) (C : Doc),
    nodeAt C (p ++ q) = (nodeAt C p).bind fun d => nodeAt d q := by
  intro p
  induction p with
  | nil => intro q C; simp [nodeAt]
  | cons k ps ih =>
    intro q C
    cases C with
    | sc s => simp [nodeAt]
    | list xs => simp [nodeAt]
    | map es =>
      simp only [List.cons_append, nodeAt]
      cases alookup es k with
      | none => simp
      | some c => simpa using ih q c

theorem nodeAt_single (C : Doc) (k : String) :
    nodeAt C [k] = (match C with
      | .map m => alookup m k
      | _ => none) := by
  cases C with
  | sc s => simp [nodeAt]
  | list xs => simp [nodeAt]
  | map es =>
    simp only [nodeAt]
    cases alookup es k <;> simp [nodeAt]

theorem delLast_modifyAt : ∀ (pre : List String) (C : Doc) (k : String),
    delLast C (pre ++ [k]) = modifyAt C pre fun es => aerase es k := by
  intro pre
  induction pre with
  | nil =>
    intro C k
    cases C with
    | sc s => simp [delLast, modifyAt]
    | list xs => simp [delLast, modifyAt]
    | map es => simp [delLast, modifyAt]
  | cons k1 ps ih =>
    intro C k
    cases C with
    | sc s => cases ps <;> simp [delLast, modifyAt]
    | list xs => cases ps <;> simp [delLast, modifyAt]
    | map es =>
      cases ps with
      | nil =>
        simp only [List.cons_append, List.nil_append, delLast, modifyAt]
        cases alookup es k1 with
        | none => simp
        | some c => simpa using congrArg (fun d => Doc.map (aset es k1 d)) (ih c k)
      | cons p2 ps2 =>
        simp only [List.cons_append, delLast, modifyAt]
        cases alookup es k1 with
        | none => simp
        | some c =>
          have h2 := ih c k
          simp only [List.cons_append] at h2
          exact congrArg (fun d => Doc.map (aset es k1 d)) h2

theorem chainOK_nodeAt : ∀ (anc : List String) (C : Doc),
    anc ≠ [] → chainOK C anc = true → ∃ m2, nodeAt C anc = some (.map m2) := by
  intro anc
  induction anc with
  | nil => intro C hne; exact absurd rfl hne
  | cons k rest ih =>
    intro C _ h
    cases C with
    | sc s => simp [chainOK] at h
    | list xs => simp [chainOK] at h
    | map es =>
      simp only [chainOK] at h
      cases hl : alookup es k with
      | none => rw [hl] at h; simp at h
      | some c =>
        rw [hl] at h
        cases c with
        | sc s => simp at h
        | list xs => simp at h
        | map m2 =>
          cases rest with
          | nil => exact ⟨m2, by simp [nodeAt, hl]⟩
          | cons r rs =>
            obtain ⟨m3, hm3⟩ := ih (.map m2) (by simp) h
            refine ⟨m3, ?_⟩
            simp only [nodeAt, hl]
            simp only [nodeAt] at hm3
            exact hm3

theorem chainOK_cons (es : List (String × Doc)) (k : String) (rest : List String)
    (h : chainOK (.map es) (k :: rest) = true) :
    ∃ m2, alookup es k = some (.map m2) ∧ chainOK (.map m2) rest = true := by
  simp only [chainOK] at h
  cases hl : alookup es k with
  | none => rw [hl] at h; simp at h
  | some c =>
    rw [hl] at h
    cases c with
    | sc s => simp at h
    | list xs => simp at h
    | map m2 => exact ⟨m2, rfl, h⟩

theorem delLast_map (rest : List String) (m : List (String × Doc)) :
    ∃ m3, delLast (.map m) rest = .map m3 := by
  cases rest with
  | nil => exact ⟨m, rfl⟩
  | cons k rest2 =>
    cases rest2 with
    | nil => exact ⟨aerase m k, rfl⟩
    | cons c2 rs =>
      simp only [delLast]
      cases alookup m k with
      | none => exact ⟨m, rfl⟩
      | some c => exact ⟨aset m k (delLast c (c2 :: rs)), rfl⟩

theorem chainOK_child_nonempty (m2 : List (String × Doc)) (r : String) (rs : List String)
    (h : chainOK (.map m2) (r :: rs) = true) : isEmptyMap (.map m2) = false := by
  obtain ⟨m3, hl, _⟩ := chainOK_cons m2 r rs h
  cases m2 with
  | nil => simp [alookup] at hl
  | cons e es => simp [isEmptyMap]

theorem rmeLoop_descend (g : Doc → List String → Except PyErr Doc)
    (full : List String) (conf : Doc) (pre : List String)
    (m : List (String × Doc)) (k : String) (child : Doc) (rest : List String)
    (hpre : nodeAt conf pre = some (.map m)) (hl : alookup m k = some child)
    (hne : isEmptyMap child = false) :
    rmeLoop g full conf pre (k :: rest) = rmeLoop g full conf (pre ++ [k]) rest := by
  simp only [rmeLoop, hpre, hl, hne]
  simp

theorem rmeLoop_delete (g : Doc → List String → Except PyErr Doc)
    (full : List String) (conf : Doc) (pre : List String)
    (m : List (String × Doc)) (k : String) (child : Doc) (rest : List String)
    (hpre : nodeAt conf pre = some (.map m)) (hl : alookup m k = some child)
    (hemp : isEmptyMap child = true) :
    rmeLoop g full conf pre (k :: rest) =
      match g (modifyAt conf pre fun es => aerase es k) full.dropLast with
      | .error e => .error e
      | .ok conf2 => rmeLoop g full conf2 pre rest := by
  simp only [rmeLoop, hpre, hl, hemp]
  simp

theorem pruneBU_cons (m : List (String × Doc)) (k : String) (rest : List String)
    (c : Doc) (hl : alookup m k = some c) :
    pruneBU (.map m) (k :: rest) =
      if isEmptyMap (pruneBU c rest) then .map (aerase m k)
      else .map (aset m k (pruneBU c rest)) := by
  simp only [pruneBU, hl]

theorem delLast_cons2 (m : List (String × Doc)) (k c2 : String) (rest : List String)
    (c : Doc) (hl : alookup m k = some c) :
    delLast (.map m) (k :: c2 :: rest) = .map (aset m k (delLast c (c2 :: rest))) := by
  simp only [delLast, hl]

theorem rmeLoop_chain (g : Doc → List String → Except PyErr Doc) (full : List String) :
    ∀ (rem pre : List String) (conf : Doc) (m : List (String × Doc)) (dn : Doc),
      nodeAt conf pre = some (.map m) → chainOK (.map m) rem = true →
      nodeAt conf (pre ++ rem) = some dn → rem ≠ [] →
      rmeLoop g full conf pre rem =
        if isEmptyMap dn then g (delLast conf (pre ++ rem)) full.dropLast
        else .ok conf := by
  intro rem
  induction rem with
  | nil => intro pre conf m dn _ _ _ hne; exact absurd rfl hne
  | cons k rest ih =>
    intro pre conf m dn hpre hchain hdn _
    obtain ⟨m2, hl, hch2⟩ := chainOK_cons m k rest hchain
    have hpre2 : nodeAt conf (pre ++ [k]) = some (.map m2) := by
      rw [nodeAt_append, hpre]
      simp [nodeAt_single, hl]
    cases rest with
    | nil =>
      have hdn2 : dn = .map m2 := by
        rw [hdn] at hpre2
        exact Option.some.inj hpre2
      subst hdn2
      cases hEmp : isEmptyMap (.map m2) with
      | true =>
        rw [rmeLoop_delete g full conf pre m k (.map m2) [] hpre hl hEmp]
        rw [← delLast_modifyAt pre conf k]
        cases hg : g (delLast conf (pre ++ [k])) full.dropLast with
        | error e => simp [hg]
        | ok conf2 => simp [hg, rmeLoop]
      | false =>
        rw [rmeLoop_descend g full conf pre m k (.map m2) [] hpre hl hEmp]
        simp [rmeLoop]
    | cons r rs =>
      have hne2 : isEmptyMap (.map m2) = false := chainOK_child_nonempty m2 r rs hch2
      have hdn2 : nodeAt conf ((pre ++ [k]) ++ (r :: rs)) = some dn := by
        rw [List.append_assoc]
        simpa using hdn
      have hstep := ih (pre ++ [k]) conf m2 dn hpre2 hch2 hdn2 (by simp)
      rw [rmeLoop_descend g full conf pre m k (.map m2) (r :: rs) hpre hl hne2]
      rw [hstep, List.append_assoc]
      simp

theorem pruneBU_rec : ∀ (anc : List String) (C : Doc) (dn : Doc),
    chainOK C anc = true → nodeAt C anc = some dn → anc ≠ [] →
    pruneBU C anc =
      if isEmptyMap dn then pruneBU (delLast C anc) anc.dropLast else C := by
  intro anc
  induction anc with
  | nil => intro C dn _ _ hne; exact absurd rfl hne
  | cons k rest ih =>
    intro C dn hchain hdn _
    cases C with
    | sc s => simp [chainOK] at hchain
    | list xs => simp [chainOK] at hchain
    | map m =>
      obtain ⟨m2, hl, hch2⟩ := chainOK_cons m k rest hchain
      cases rest with
      | nil =>
        have hdn2 : dn = .map m2 := by
          simp only [nodeAt, hl] at hdn
          exact (Option.some.inj hdn).symm
        subst hdn2
        rw [pruneBU_cons m k [] (.map m2) hl]
        simp only [pruneBU, List.dropLast_single, delLast]
        cases hEmp : isEmptyMap (.map m2) with
        | true => simp [hEmp, pruneBU]
        | false => simp [hEmp, aset_self m k _ hl]
      | cons r rs =>
        have hdn2 : nodeAt (.map m2) (r :: rs) = some dn := by
          simp only [nodeAt, hl] at hdn
          simp only [nodeAt]
          exact hdn
        have ihr := ih (.map m2) dn hch2 hdn2 (by simp)
        have hdl : List.dropLast (k :: r :: rs) = k :: List.dropLast (r :: rs) := rfl
        rw [pruneBU_cons m k (r :: rs) (.map m2) hl]
        cases hEmp : isEmptyMap dn with
        | true =>
          simp only [hEmp, if_true] at ihr
          rw [ihr, hdl, delLast_cons2 m k r rs (.map m2) hl]
          rw [pruneBU_cons (aset m k (delLast (.map m2) (r :: rs))) k
            (List.dropLast (r :: rs)) (delLast (.map m2) (r :: rs))
            (alookup_aset_self m k _)]
          cases hEmp2 : isEmptyMap (pruneBU (delLast (.map m2) (r :: rs)) (List.dropLast (r :: rs))) with
          | true => simp [aerase_aset]
          | false => simp [aset_aset]
        | false =>
          simp only [hEmp, Bool.false_eq_true, if_false] at ihr
          have hne2 : isEmptyMap (.map m2) = false := chainOK_child_nonempty m2 r rs hch2
          rw [ihr, hne2]
          simp [aset_self m k _ hl]

theorem chainOK_delLast : ∀ (anc : List String) (C : Doc),
    chainOK C anc = true → chainOK (delLast C anc) anc.dropLast = true := by
  intro anc
  induction anc with
  | nil => intro C _; simp [chainOK]
  | cons k rest ih =>
    intro C hchain
    cases C with
    | sc s => simp [chainOK] at hchain
    | list xs => simp [chainOK] at hchain
    | map m =>
      obtain ⟨m2, hl, hch2⟩ := chainOK_cons m k rest hchain
      cases rest with
      | nil => simp [chainOK]
      | cons r rs =>
        have hdl : List.dropLast (k :: r :: rs) = k :: List.dropLast (r :: rs) := rfl
        rw [delLast_cons2 m k r rs (.map m2) hl, hdl]
        obtain ⟨m3, hm3⟩ := delLast_map (r :: rs) m2
        have ihr := ih (.map m2) hch2
        rw [hm3] at ihr ⊢
        simp only [chainOK, alookup_aset_self]
        exact ihr

theorem rme_eq_pruneBU : ∀ (fuel : Nat) (anc : List String) (C : Doc),
    chainOK C anc = true → anc.length < fuel →
    remove_empty_configs fuel C anc = .ok (pruneBU C anc) := by
  intro fuel
  induction fuel with
  | zero => intro anc C _ h; omega
  | succ f ih =>
    intro anc C hchain hlen
    cases anc with
    | nil => simp [remove_empty_configs, pruneBU]
    | cons k rest =>
      have hC : ∃ m, C = Doc.map m := by
        cases C with
        | sc s => simp [chainOK] at hchain
        | list xs => simp [chainOK] at hchain
        | map m => exact ⟨m, rfl⟩
      obtain ⟨m, rfl⟩ := hC
      obtain ⟨md, hmd⟩ := chainOK_nodeAt (k :: rest) (.map m) (by simp) hchain
      have hloop := rmeLoop_chain (remove_empty_configs f) (k :: rest) (k :: rest) []
        (.map m) m (.map md) rfl hchain (by simpa using hmd) (by simp)
      simp only [List.nil_append] at hloop
      have hrec := pruneBU_rec (k :: rest) (.map m) (.map md) hchain hmd (by simp)
      have hstep : remove_empty_configs (f + 1) (.map m) (k :: rest)
          = rmeLoop (remove_empty_configs f) (k :: rest) (.map m) [] (k :: rest) := by
        simp [remove_empty_configs]
      rw [hstep, hloop, hrec]
      cases hEmp : isEmptyMap (.map md) with
      | true =>
        rw [if_pos rfl, if_pos rfl]
        exact ih (k :: rest).dropLast (delLast (.map m) (k :: rest))
          (chainOK_delLast (k :: rest) (.map m) hchain)
          (by
            have h1 : (k :: rest).dropLast.length = rest.length := by
              simp [List.length_dropLast]
            have h2 : (k :: rest).length = rest.length + 1 := by simp
            omega)
      | false =>
        rw [if_neg (by simp), if_neg (by simp)]

theorem resolvable_map (segs : List String) (C : Doc)
    (h : resolvable C segs = true) : ∃ m, C = .map m := by
  cases C with
  | sc s => cases segs with
    | nil => simp [resolvable] at h
    | cons k rest => cases rest <;> simp [resolvable] at h
  | list xs => cases segs with
    | nil => simp [resolvable] at h
    | cons k rest => cases rest <;> simp [resolvable] at h
  | map m => exact ⟨m, rfl⟩

theorem resolvable_cons2 (m : List (String × Doc)) (k c2 : String) (rest : List String)
    (h : resolvable (.map m) (k :: c2 :: rest) = true) :
    ∃ c, alookup m k = some c ∧ resolvable c (c2 :: rest) = true := by
  simp only [resolvable] at h
  cases hl : alookup m k with
  | none => rw [hl] at h; simp at h
  | some c => rw [hl] at h; exact ⟨c, rfl, h⟩

theorem resolvable_single (m : List (String × Doc)) (k : String)
    (h : resolvable (.map m) [k] = true) : ∃ v, alookup m k = some v := by
  simp only [resolvable, ahas, Option.isSome_iff_exists] at h
  exact h

theorem unsetLoop_resolvable : ∀ (segs : List String) (C : Doc),
    resolvable C segs = true → unsetLoop C segs = .ok (delLast C segs) := by
  intro segs
  induction segs with
  | nil => intro C h; simp [resolvable] at h
  | cons k rest ih =>
    intro C h
    obtain ⟨m, rfl⟩ := resolvable_map (k :: rest) C h
    cases rest with
    | nil =>
      obtain ⟨v, hv⟩ := resolvable_single m k h
      have hhas : ahas m k = true := by simp [ahas, hv]
      simp [unsetLoop, pyIn, hhas, pyDelItem, hv, delLast]
    | cons c2 rs =>
      obtain ⟨c, hl, hres⟩ := resolvable_cons2 m k c2 rs h
      have hhas : ahas m k = true := by simp [ahas, hl]
      have hrec := ih c hres
      simp [unsetLoop, pyIn, hhas, pyGetItem, hl, hrec, delLast_cons2 m k c2 rs c hl]

theorem resolvable_chainOK_delLast : ∀ (segs : List String) (C : Doc),
    resolvable C segs = true → chainOK (delLast C segs) segs.dropLast = true := by
  intro segs
  induction segs with
  | nil => intro C h; simp [resolvable] at h
  | cons k rest ih =>
    intro C h
    obtain ⟨m, rfl⟩ := resolvable_map (k :: rest) C h
    cases rest with
    | nil => simp [chainOK]
    | cons c2 rs =>
      obtain ⟨c, hl, hres⟩ := resolvable_cons2 m k c2 rs h
      obtain ⟨mc, rfl⟩ := resolvable_map (c2 :: rs) c hres
      have hdl : List.dropLast (k :: c2 :: rs) = k :: List.dropLast (c2 :: rs) := rfl
      rw [delLast_cons2 m k c2 rs (.map mc) hl, hdl]
      obtain ⟨m3, hm3⟩ := delLast_map (c2 :: rs) mc
      have ihr := ih (.map mc) hres
      rw [hm3] at ihr ⊢
      simp only [chainOK, alookup_aset_self]
      exact ihr

theorem specUnsetPrune_cons2 (m : List (String × Doc)) (k c2 : String)
    (rest : List String) (c : Doc) (hl : alookup m k = some c) :
    specUnsetPrune (.map m) (k :: c2 :: rest) =
      if isEmptyMap (specUnsetPrune c (c2 :: rest)) then .map (aerase m k)
      else .map (aset m k (specUnsetPrune c (c2 :: rest))) := by
  simp only [specUnsetPrune, hl]

theorem spec_eq_pruneBU : ∀ (segs : List String) (C : Doc),
    resolvable C segs = true →
    specUnsetPrune C segs = pruneBU (delLast C segs) segs.dropLast := by
  intro segs
  induction segs with
  | nil => intro C h; simp [resolvable] at h
  | cons k rest ih =>
    intro C h
    obtain ⟨m, rfl⟩ := resolvable_map (k :: rest) C h
    cases rest with
    | nil => simp [specUnsetPrune, delLast, pruneBU]
    | cons c2 rs =>
      obtain ⟨c, hl, hres⟩ := resolvable_cons2 m k c2 rs h
      obtain ⟨mc, rfl⟩ := resolvable_map (c2 :: rs) c hres
      have hdl : List.dropLast (k :: c2 :: rs) = k :: List.dropLast (c2 :: rs) := rfl
      rw [specUnsetPrune_cons2 m k c2 rs (.map mc) hl, ih (.map mc) hres,
        delLast_cons2 m k c2 rs (.map mc) hl, hdl]
      rw [pruneBU_cons (aset m k (delLast (.map mc) (c2 :: rs))) k
        (List.dropLast (c2 :: rs)) (delLast (.map mc) (c2 :: rs))
        (alookup_aset_self m k _)]
      cases hEmp : isEmptyMap (pruneBU (delLast (.map mc) (c2 :: rs)) (List.dropLast (c2 :: rs))) with
      | true => simp [aerase_aset]
      | false => simp [aset_aset]

/-- unset_item_from_config on a fully resolvable path: walk and delete, then
prune, is exactly the spec-side delete-then-prune-upward function. -/
theorem unset_ok (C : Doc) (p : String)
    (h : resolvable C (pySplitDot p) = true) :
    unset_item_from_config C p = .ok (specUnsetPrune C (pySplitDot p)) := by
  have hne : pySplitDot p ≠ [] := pySplitDot_ne_nil p
  have hwalk := unsetLoop_resolvable (pySplitDot p) C h
  have hchain := resolvable_chainOK_delLast (pySplitDot p) C h
  have hlen : (pySplitDot p).dropLast.length < (pySplitDot p).length := by
    have h1 : (pySplitDot p).dropLast.length = (pySplitDot p).length - 1 := by
      simp [List.length_dropLast]
    have h2 : 0 < (pySplitDot p).length := List.length_pos.mpr hne
    omega
  have hrme := rme_eq_pruneBU (pySplitDot p).length (pySplitDot p).dropLast
    (delLast C (pySplitDot p)) hchain hlen
  simp only [unset_item_from_config, hwalk, hrme, spec_eq_pruneBU (pySplitDot p) C h]

/-- C1: For every document and multi-segment key path whose every segment
exists, unset deletes the final key and then prunes every now-empty mapping
ancestor all the way up to the root (specUnsetPrune is the spec-side
delete-then-prune-upward function); in particular, unset("a.b.c") applied to
{a: {b: {c: 5}}} returns the empty mapping {}. -/
theorem claim_C1 (D : Doc) (p : String)
    (hmulti : 2 ≤ (pySplitDot p).length)
    (hres : resolvable D (pySplitDot p) = true) :
    unset_item_from_config D p = .ok (specUnsetPrune D (pySplitDot p)) ∧
    unset_item_from_config
        (.map [("a", .map [("b", .map [("c", .sc (.int 5))])])]) "a.b.c"
      = .ok (.map []) :=
  ⟨unset_ok D p hres, rfl⟩

/-- Witness for C1 at the document {a: {b: {c: 5}}} and path "a.b.c". -/
theorem claim_C1_witness :
    (2 ≤ (pySplitDot "a.b.c").length ∧
      resolvable (.map [("a", .map [("b", .map [("c", .sc (.int 5))])])])
        (pySplitDot "a.b.c") = true) ∧
    unset_item_from_config
        (.map [("a", .map [("b", .map [("c", .sc (.int 5))])])]) "a.b.c"
      = .ok (specUnsetPrune
          (.map [("a", .map [("b", .map [("c", .sc (.int 5))])])])
          (pySplitDot "a.b.c")) :=
  ⟨⟨by decide, by decide⟩,
    (claim_C1 (.map [("a", .map [("b", .map [("c", .sc (.int 5))])])]) "a.b.c"
      (by decide) (by decide)).1⟩

/-- C10: there is a document and a multi-segment key path on which unset fails
with an error that is not the controlled ValueError (PathNotFound): on
{a: "xby"} with path "a.b", the membership test "b" in "xby" succeeds because
in on a string is substring containment, and del then raises an uncontrolled
TypeError. -/
theorem claim_C10 :
    unset_item_from_config (.map [("a", .sc (.str "xby"))]) "a.b"
        = .error .typeError ∧
    2 ≤ (pySplitDot "a.b").length ∧
    PyErr.typeError ≠ PyErr.valueErrorNoExist :=
  ⟨rfl, by decide, by decide⟩

/-- C7 (amended): when the caller disables validation, the schema check is
still executed (it is not skipped), but any schema violation is ignored: for
every outcome of the schema check, validate_config with validate = false
returns successfully and never exits, so the write proceeds. -/
theorem claim_C7 (validationError : Option String) :
    (validate_config validationError false).2 = .ok () ∧
    (validate_config validationError false).1 = true := by
  cases validationError <;> exact ⟨rfl, rfl⟩

/-- C7 counterexample to the claim as stated: the claim says the validator
hook is "skipped entirely" when validation is disabled, but validate_config
invokes the schema check unconditionally: on a failing document with
validate = false the check still runs (the run marker is true). -/
theorem claim_C7_cx :
    (validate_config (some "not valid under the schema") false).1 = true := rfl

theorem setLoop_sc (s : Sc) (k c2 : String) (rs : List String) (v : Doc) :
    setLoop (.sc s) (k :: c2 :: rs) v = .error .typeError := by
  cases s with
  | str s0 =>
    simp only [setLoop, pyIn, pyGetItem]
    split
    next e heq => split at heq <;> cases heq <;> rfl
    next heq => rfl
    next heq => rfl
  | int n => simp [setLoop, pyIn]
  | fl a b => simp [setLoop, pyIn]
  | bool b => simp [setLoop, pyIn]
  | null => simp [setLoop, pyIn]

theorem setLoop_list (xs : List Doc) (k c2 : String) (rs : List String) (v : Doc) :
    setLoop (.list xs) (k :: c2 :: rs) v = .error .typeError := by
  simp only [setLoop, pyIn, pyGetItem]
  split
  next e heq => split at heq <;> cases heq <;> rfl
  next heq => rfl
  next heq => rfl

theorem setLoop_map_cons (m : List (String × Doc)) (k c2 : String)
    (rs : List String) (v : Doc) :
    setLoop (.map m) (k :: c2 :: rs) v =
      match setLoop (setChild m k) (c2 :: rs) v with
      | .ok child2 => .ok (.map (aset m k child2))
      | .error e => .error e := by
  cases hl : alookup m k with
  | none =>
    have hm : ahas m k = false := by simp [ahas, hl]
    simp [setLoop, pyIn, hm, setChild, hl]
  | some c =>
    have hm : ahas m k = true := by simp [ahas, hl]
    cases c with
    | map m2 => simp [setLoop, pyIn, hm, pyGetItem, hl, _is_dict, setChild]
    | sc s => simp [setLoop, pyIn, hm, pyGetItem, hl, _is_dict, setChild]
    | list xs => simp [setLoop, pyIn, hm, pyGetItem, hl, _is_dict, setChild]

theorem setLoop_ok_map : ∀ (segs : List String) (D v r : Doc), segs ≠ [] →
    setLoop D segs v = .ok r → ∃ m2, r = .map m2 := by
  intro segs
  cases segs with
  | nil => intro D v r hne; exact absurd rfl hne
  | cons k rest =>
    intro D v r _ h
    cases rest with
    | nil =>
      cases D with
      | map m =>
        simp [setLoop, pySetItem] at h
        exact ⟨aset m k v, h.symm⟩
      | sc s => simp [setLoop, pySetItem] at h
      | list xs => simp [setLoop, pySetItem] at h
    | cons c2 rs =>
      cases D with
      | sc s => rw [setLoop_sc] at h; simp at h
      | list xs => rw [setLoop_list] at h; simp at h
      | map m =>
        rw [setLoop_map_cons] at h
        cases hs : setLoop (setChild m k) (c2 :: rs) v with
        | error e => rw [hs] at h; simp at h
        | ok child2 =>
          rw [hs] at h
          simp at h
          exact ⟨aset m k child2, h.symm⟩

theorem setLoop_idem : ∀ (segs : List String) (D v : Doc),
    (setLoop D segs v).bind (fun D2 => setLoop D2 segs v) = setLoop D segs v := by
  intro segs
  induction segs with
  | nil => intro D v; rfl
  | cons k rest ih =>
    intro D v
    cases rest with
    | nil =>
      cases D with
      | map m => simp [setLoop, pySetItem, Except.bind, aset_aset]
      | sc s => simp [setLoop, pySetItem, Except.bind]
      | list xs => simp [setLoop, pySetItem, Except.bind]
    | cons c2 rs =>
      cases D with
      | sc s => rw [setLoop_sc]; rfl
      | list xs => rw [setLoop_list]; rfl
      | map m =>
        rw [setLoop_map_cons]
        cases hs : setLoop (setChild m k) (c2 :: rs) v with
        | error e => rfl
        | ok child2 =>
          obtain ⟨m2, rfl⟩ := setLoop_ok_map (c2 :: rs) (setChild m k) v child2
            (by simp) hs
          have hsecond : setLoop (.map m2) (c2 :: rs) v = .ok (.map m2) := by
            have hbind := ih (setChild m k) v
            rw [hs] at hbind
            simpa [Except.bind] using hbind
          have hchild : setChild (aset m k (.map m2)) k = .map m2 := by
            simp [setChild, alookup_aset_self]
          show Except.bind (.ok (.map (aset m k (.map m2))))
              (fun D2 => setLoop D2 (k :: c2 :: rs) v)
            = .ok (.map (aset m k (.map m2)))
          simp only [Except.bind]
          rw [setLoop_map_cons, hchild, hsecond]
          simp [aset_aset]

/-- C8: set is idempotent: for every document, key path and value, running
set_item_in_config twice with the same arguments gives the same result as
running it once (stated with bind so that the error on a non-mapping root is
covered as well; on a mapping root set always succeeds). -/
theorem claim_C8 (D : Doc) (p : String) (v : Doc) :
    (set_item_in_config D p v).bind (fun D2 => set_item_in_config D2 p v)
      = set_item_in_config D p v := by
  unfold set_item_in_config
  exact setLoop_idem (pySplitDot p) D v

theorem setChild_is_map (m : List (String × Doc)) (k : String) :
    ∃ m2, setChild m k = .map m2 := by
  unfold setChild
  cases alookup m k with
  | none => exact ⟨[], rfl⟩
  | some c =>
    cases c with
    | map m2 => exact ⟨m2, rfl⟩
    | sc s => exact ⟨[], rfl⟩
    | list xs => exact ⟨[], rfl⟩

/-- Final-segment behaviour of add_item_to_config on a mapping. -/
theorem addLoop_single (m : List (String × Doc)) (k : String) (v : Doc) :
    addLoop (.map m) [k] v =
      match alookup m k with
      | some (.list xs) => .ok (.map (aset m k (.list (xs ++ [v]))))
      | some (.sc (.str _)) => .error .attributeError
      | _ => .ok (.map (aset m k (.list [v]))) := by
  cases hl : alookup m k with
  | none =>
    have hm : ahas m k = false := by simp [ahas, hl]
    simp [addLoop, pyIn, hm]
  | some c =>
    have hm : ahas m k = true := by simp [ahas, hl]
    cases c with
    | list xs => simp [addLoop, pyIn, hm, pyGetItem, hl, _is_list]
    | map m2 => simp [addLoop, pyIn, hm, pyGetItem, hl, _is_list]
    | sc s =>
      cases s <;> simp [addLoop, pyIn, hm, pyGetItem, hl, _is_list]

/-- Intermediate-segment behaviour of add_item_to_config on a mapping, which
is that of set_item_in_config. -/
theorem addLoop_map_cons (m : List (String × Doc)) (k c2 : String)
    (rs : List String) (v : Doc) :
    addLoop (.map m) (k :: c2 :: rs) v =
      match addLoop (setChild m k) (c2 :: rs) v with
      | .ok child2 => .ok (.map (aset m k child2))
      | .error e => .error e := by
  cases hl : alookup m k with
  | none =>
    have hm : ahas m k = false := by simp [ahas, hl]
    simp [addLoop, pyIn, hm, setChild, hl]
  | some c =>
    have hm : ahas m k = true := by simp [ahas, hl]
    cases c with
    | map m2 => simp [addLoop, pyIn, hm, pyGetItem, hl, _is_dict, setChild]
    | sc s => simp [addLoop, pyIn, hm, pyGetItem, hl, _is_dict, setChild]
    | list xs => simp [addLoop, pyIn, hm, pyGetItem, hl, _is_dict, setChild]

theorem addLoop_eq_addSpec : ∀ (segs : List String) (m : List (String × Doc)) (v : Doc),
    addLoop (.map m) segs v = addSpec (.map m) segs v := by
  intro segs
  induction segs with
  | nil => intro m v; rfl
  | cons k rest ih =>
    intro m v
    cases rest with
    | nil =>
      rw [addLoop_single]
      cases hl : alookup m k with
      | none => simp [addSpec, hl]
      | some c => cases c with
        | list xs => simp [addSpec, hl]
        | map m2 => simp [addSpec, hl]
        | sc s => cases s <;> simp [addSpec, hl]
    | cons c2 rs =>
      rw [addLoop_map_cons]
      obtain ⟨m0, hm0⟩ := setChild_is_map m k
      have hspec : addSpec (.map m) (k :: c2 :: rs) v =
          match addSpec (setChild m k) (c2 :: rs) v with
          | .ok c3 => .ok (.map (aset m k c3))
          | .error e => .error e := by
        cases hl2 : alookup m k with
        | none => simp [addSpec, setChild, hl2]
        | some c => cases c <;> simp [addSpec, setChild, hl2]
      rw [hspec, hm0, ih m0 v]

/-- C4 (amended): add_item creates intermediate mappings destructively like
set; at the final segment, if the key is absent or its value is neither a
list nor a string (anything failing the Sequence test) it is replaced by a
fresh empty list which the value then extends, an existing list is appended
to, and an existing string passes the Sequence test but the append then fails
with an uncontrolled AttributeError; in particular on {} the calls
add_item("x.y", "v1") then add_item("x.y", "v2") produce
{x: {y: [v1, v2]}}. -/
theorem claim_C4 (m : List (String × Doc)) (p : String) (v : Doc) :
    add_item_to_config (.map m) p v = addSpec (.map m) (pySplitDot p) v ∧
    (add_item_to_config (.map []) "x.y" (.sc (.str "v1"))
        = .ok (.map [("x", .map [("y", .list [.sc (.str "v1")])])]) ∧
      add_item_to_config (.map [("x", .map [("y", .list [.sc (.str "v1")])])])
          "x.y" (.sc (.str "v2"))
        = .ok (.map [("x", .map [("y",
            .list [.sc (.str "v1"), .sc (.str "v2")])])])) :=
  ⟨addLoop_eq_addSpec (pySplitDot p) m v, rfl, rfl⟩

/-- C4 counterexample to the claim as stated: on {x: "s"} the existing value
at the final segment is not a list, so the claim requires it to be replaced
by a fresh list and appended to; the code instead lets the string pass its
Sequence test and crashes with AttributeError on the missing append. -/
theorem claim_C4_cx :
    add_item_to_config (.map [("x", .sc (.str "s"))]) "x" (.sc (.str "v1"))
      = .error .attributeError := rfl

/-- C6 (amended): the empty path string is not rejected: it splits into the
single empty-string segment "", which is used as an ordinary mapping key.
set and add_item modify the document under the "" key; unset and remove_item
raise their controlled ValueError when "" is absent.  No InvalidPath error
exists in the code. -/
theorem claim_C6 (m : List (String × Doc)) (v : Doc) :
    set_item_in_config (.map m) "" v = .ok (.map (aset m "" v)) ∧
    add_item_to_config (.map m) "" v =
      (match alookup m "" with
       | some (.list xs) => .ok (.map (aset m "" (.list (xs ++ [v]))))
       | some (.sc (.str _)) => .error .attributeError
       | _ => .ok (.map (aset m "" (.list [v])))) ∧
    (alookup m "" = none →
      unset_item_from_config (.map m) "" = .error .valueErrorNoExist) ∧
    (alookup m "" = none →
      remove_item_from_config (.map m) "" v = .error .valueErrorNotAList) := by
  refine ⟨rfl, ?_, ?_, ?_⟩
  · have h : pySplitDot "" = [""] := rfl
    show addLoop (.map m) (pySplitDot "") v = _
    rw [h, addLoop_single]
  · intro hl
    have hm : ahas m "" = false := by simp [ahas, hl]
    show (match unsetLoop (.map m) (pySplitDot "") with
      | .error e => .error e
      | .ok c1 => remove_empty_configs (pySplitDot "").length c1 (pySplitDot "").dropLast)
      = Except.error PyErr.valueErrorNoExist
    have h : pySplitDot "" = [""] := rfl
    rw [h]
    simp [unsetLoop, pyIn, hm]
  · intro hl
    have hm : ahas m "" = false := by simp [ahas, hl]
    show removeLoop (.map m) (pySplitDot "") v = _
    have h : pySplitDot "" = [""] := rfl
    rw [h]
    simp [removeLoop, pyIn, hm]

/-- C6 counterexample to the claim as stated: a mutation operation given the
empty key path does not report InvalidPath without modifying the document;
set on {} with the empty path writes the key "" and succeeds. -/
theorem claim_C6_cx :
    set_item_in_config (.map []) "" (.sc (.int 5))
      = .ok (.map [("", .sc (.int 5))]) := rfl

/-- Witness for C6 at the empty document. -/
theorem claim_C6_witness :
    (alookup ([] : List (String × Doc)) "" = none) ∧
    set_item_in_config (.map []) "" (.sc (.int 7)) = .ok (.map [("", .sc (.int 7))]) ∧
    unset_item_from_config (.map []) "" = .error .valueErrorNoExist ∧
    remove_item_from_config (.map []) "" (.sc (.int 7)) = .error .valueErrorNotAList := by
  have h := claim_C6 [] (.sc (.int 7))
  exact ⟨rfl, h.1, h.2.2.1 rfl, h.2.2.2 rfl⟩

theorem removeLoop_resolved : ∀ (segs : List String) (D v : Doc) (xs : List Doc),
    nodeAt D segs = some (.list xs) → segs ≠ [] →
    removeLoop D segs v =
      match removeFirstPy v xs with
      | some ys => .ok (putAt D segs (.list ys))
      | none => .error .valueErrorNotInList := by
  intro segs
  induction segs with
  | nil => intro D v xs _ hne; exact absurd rfl hne
  | cons k rest ih =>
    intro D v xs hn _
    cases D with
    | sc s => simp [nodeAt] at hn
    | list ls => simp [nodeAt] at hn
    | map m =>
      simp only [nodeAt] at hn
      cases hl : alookup m k with
      | none => rw [hl] at hn; simp at hn
      | some c =>
        rw [hl] at hn
        have hm : ahas m k = true := by simp [ahas, hl]
        cases rest with
        | nil =>
          simp only [nodeAt] at hn
          have hc : c = .list xs := Option.some.inj hn
          subst hc
          simp only [removeLoop, pyIn, hm, pyGetItem, hl, _is_list]
          cases hr : removeFirstPy v xs <;> simp [putAt, hl]
        | cons c2 rs =>
          have hc : ∃ mc, c = .map mc := by
            cases c with
            | map mc => exact ⟨mc, rfl⟩
            | sc s => simp [nodeAt] at hn
            | list ls => simp [nodeAt] at hn
          obtain ⟨mc, rfl⟩ := hc
          have hrec := ih (.map mc) v xs hn (by simp)
          simp only [removeLoop, pyIn, hm, pyGetItem, hl, _is_dict]
          rw [hrec]
          cases hr : removeFirstPy v xs <;> simp [putAt, hl]

/-- C5 (amended): on a document whose key path resolves through mappings to a
list, remove_item removes exactly the first occurrence equal to the given
value under the language's equality — which identifies True/False with 1/0,
compares numbers across int/float, and compares mappings order-insensitively,
and is structural equality otherwise; if no occurrence is equal it fails with
ValueError "list.remove(x): x not in list" (ValueNotFound), returning no
document. -/
theorem claim_C5 (m : List (String × Doc)) (p : String) (v : Doc) (xs : List Doc)
    (hn : nodeAt (.map m) (pySplitDot p) = some (.list xs)) :
    remove_item_from_config (.map m) p v =
      (match removeFirstPy v xs with
       | some ys => .ok (putAt (.map m) (pySplitDot p) (.list ys))
       | none => .error .valueErrorNotInList) ∧
    remove_item_from_config
        (.map [("x", .map [("y", .list [.sc (.str "v1"), .sc (.str "v2")])])])
        "x.y" (.sc (.str "v1"))
      = .ok (.map [("x", .map [("y", .list [.sc (.str "v2")])])]) :=
  ⟨removeLoop_resolved (pySplitDot p) (.map m) v xs hn (pySplitDot_ne_nil p), rfl⟩

/-- C5 counterexample to the claim as stated: on {x: [1]} removing the value
True, no element of the list is structurally equal to True (the list holds
the integer 1), so the claim requires a ValueNotFound failure with the
document unchanged; Python == identifies True with 1, so the code removes the
1 and succeeds. -/
theorem claim_C5_cx :
    remove_item_from_config (.map [("x", .list [.sc (.int 1)])]) "x" (.sc (.bool true))
      = .ok (.map [("x", .list [])]) := rfl

/-- Witness for C5 at {x: {y: [v1, v2]}}, path "x.y", value v1. -/
theorem claim_C5_witness :
    nodeAt (.map [("x", .map [("y", .list [.sc (.str "v1"), .sc (.str "v2")])])])
        (pySplitDot "x.y")
      = some (.list [.sc (.str "v1"), .sc (.str "v2")]) ∧
    remove_item_from_config
        (.map [("x", .map [("y", .list [.sc (.str "v1"), .sc (.str "v2")])])])
        "x.y" (.sc (.str "v1"))
      = (match removeFirstPy (.sc (.str "v1")) [.sc (.str "v1"), .sc (.str "v2")] with
         | some ys => .ok (putAt
             (.map [("x", .map [("y", .list [.sc (.str "v1"), .sc (.str "v2")])])])
             (pySplitDot "x.y") (.list ys))
         | none => .error .valueErrorNotInList) :=
  ⟨rfl,
    (claim_C5 [("x", .map [("y", .list [.sc (.str "v1"), .sc (.str "v2")])])]
      "x.y" (.sc (.str "v1")) [.sc (.str "v1"), .sc (.str "v2")] rfl).1⟩

theorem setLoop_eq_setSpec : ∀ (segs : List String) (m : List (String × Doc)) (v : Doc),
    setLoop (.map m) segs v = .ok (setSpec (.map m) segs v) := by
  intro segs
  induction segs with
  | nil => intro m v; rfl
  | cons k rest ih =>
    intro m v
    cases rest with
    | nil => simp [setLoop, pySetItem, setSpec]
    | cons c2 rs =>
      rw [setLoop_map_cons]
      obtain ⟨m0, hm0⟩ := setChild_is_map m k
      have hspec : setSpec (.map m) (k :: c2 :: rs) v =
          .map (aset m k (setSpec (setChild m k) (c2 :: rs) v)) := by
        cases hl2 : alookup m k with
        | none => simp [setSpec, setChild, hl2]
        | some c => cases c <;> simp [setSpec, setChild, hl2]
      rw [hspec, hm0, ih m0 v]

theorem setSpec_is_map (segs : List String) (m : List (String × Doc)) (v : Doc) :
    ∃ m2, setSpec (.map m) segs v = .map m2 := by
  cases segs with
  | nil => exact ⟨m, rfl⟩
  | cons k rest =>
    cases rest with
    | nil => exact ⟨aset m k v, rfl⟩
    | cons c2 rs =>
      cases hl : alookup m k with
      | none => exact ⟨aset m k (setSpec (.map []) (c2 :: rs) v), by simp [setSpec, hl]⟩
      | some c =>
        cases c with
        | map m2 => exact ⟨aset m k (setSpec (.map m2) (c2 :: rs) v), by simp [setSpec, hl]⟩
        | sc s => exact ⟨aset m k (setSpec (.map []) (c2 :: rs) v), by simp [setSpec, hl]⟩
        | list xs => exact ⟨aset m k (setSpec (.map []) (c2 :: rs) v), by simp [setSpec, hl]⟩

theorem setSpec_cons2 (m : List (String × Doc)) (k c2 : String) (rs : List String)
    (v : Doc) :
    setSpec (.map m) (k :: c2 :: rs) v =
      .map (aset m k (setSpec (setChild m k) (c2 :: rs) v)) := by
  cases hl : alookup m k with
  | none => simp [setSpec, setChild, hl]
  | some c => cases c <;> simp [setSpec, setChild, hl]

theorem resolvable_setSpec : ∀ (segs : List String) (m : List (String × Doc)) (v : Doc),
    segs ≠ [] → resolvable (setSpec (.map m) segs v) segs = true := by
  intro segs
  induction segs with
  | nil => intro m v hne; exact absurd rfl hne
  | cons k rest ih =>
    intro m v _
    cases rest with
    | nil => simp [setSpec, resolvable, ahas_aset]
    | cons c2 rs =>
      rw [setSpec_cons2]
      obtain ⟨m0, hm0⟩ := setChild_is_map m k
      rw [hm0]
      simp only [resolvable, alookup_aset_self]
      exact ih m0 v (by simp)

/-- The mapping chain freshly created by set inside an empty mapping collapses
back to the empty mapping under delete-then-prune. -/
theorem freshCollapse : ∀ (segs : List String) (v : Doc), segs ≠ [] →
    specUnsetPrune (setSpec (.map []) segs v) segs = .map [] := by
  intro segs
  induction segs with
  | nil => intro v hne; exact absurd rfl hne
  | cons k rest ih =>
    intro v _
    cases rest with
    | nil =>
      show specUnsetPrune (.map (aset [] k v)) [k] = .map []
      simp [aset, specUnsetPrune, aerase, List.filter]
    | cons c2 rs =>
      rw [setSpec_cons2]
      have hsc : setChild ([] : List (String × Doc)) k = .map [] := rfl
      rw [hsc]
      have haset : aset ([] : List (String × Doc)) k (setSpec (.map []) (c2 :: rs) v)
          = [(k, setSpec (.map []) (c2 :: rs) v)] := rfl
      rw [haset]
      rw [specUnsetPrune_cons2 [(k, setSpec (.map []) (c2 :: rs) v)] k c2 rs
        (setSpec (.map []) (c2 :: rs) v) (by simp [alookup])]
      rw [ih v (by simp)]
      simp [isEmptyMap, aerase, List.filter]

theorem introduced_pruned : ∀ (segs : List String) (m : List (String × Doc))
    (v : Doc) (j : Nat),
    1 ≤ j → j < segs.length → isMapAt (.map m) (segs.take j) = false →
    nodeAt (specUnsetPrune (setSpec (.map m) segs v) segs) (segs.take j) = none := by
  intro segs
  induction segs with
  | nil => intro m v j h1 h2 _; simp at h2
  | cons k rest ih =>
    intro m v j h1 h2 hmap
    cases rest with
    | nil =>
      have hlen1 : (k :: ([] : List String)).length = 1 := rfl
      omega
    | cons c2 rs =>
      rw [setSpec_cons2]
      obtain ⟨m0, hm0⟩ := setChild_is_map m k
      obtain ⟨m1, hm1⟩ := setSpec_is_map (c2 :: rs) m0 v
      have hS1 : setSpec (setChild m k) (c2 :: rs) v = .map m1 := by rw [hm0, hm1]
      rw [specUnsetPrune_cons2 (aset m k (setSpec (setChild m k) (c2 :: rs) v)) k c2 rs
        (setSpec (setChild m k) (c2 :: rs) v) (alookup_aset_self m k _)]
      obtain ⟨j2, rfl⟩ : ∃ j2, j = j2 + 1 := ⟨j - 1, by omega⟩
      have htake : (k :: c2 :: rs).take (j2 + 1) = k :: (c2 :: rs).take j2 := rfl
      rw [htake]
      by_cases hj2 : j2 = 0
      · -- j = 1 : the first segment itself was introduced
        subst hj2
        have hc0 : setChild m k = .map [] := by
          unfold setChild
          simp only [isMapAt, htake, List.take_zero, nodeAt, nodeAt_single] at hmap
          cases hl : alookup m k with
          | none => rfl
          | some c =>
            cases c with
            | map m2 => rw [hl] at hmap; simp at hmap
            | sc s => rfl
            | list xs => rfl
        have hcol : specUnsetPrune (setSpec (setChild m k) (c2 :: rs) v) (c2 :: rs)
            = .map [] := by
          rw [hc0]; exact freshCollapse (c2 :: rs) v (by simp)
        rw [hcol]
        simp [isEmptyMap, nodeAt, alookup_aerase_self]
      · -- j ≥ 2 : the break is deeper
        have hj1 : 1 ≤ j2 := by omega
        have hj2len : j2 < (c2 :: rs).length := by simp at h2 ⊢; omega
        cases hl : alookup m k with
        | some c =>
          cases c with
          | map m2 =>
            have hc0 : setChild m k = .map m2 := by unfold setChild; rw [hl]
            have hmap2 : isMapAt (.map m2) ((c2 :: rs).take j2) = false := by
              simp only [isMapAt, htake, nodeAt, hl] at hmap
              simpa [isMapAt] using hmap
            have hrec := ih m2 v j2 hj1 hj2len hmap2
            rw [hc0]
            cases hEmp : isEmptyMap (specUnsetPrune (setSpec (.map m2) (c2 :: rs) v) (c2 :: rs)) with
            | true => simp [nodeAt, alookup_aerase_self]
            | false => simp [nodeAt, alookup_aset_self, hrec]
          | sc s =>
            have hc0 : setChild m k = .map [] := by unfold setChild; rw [hl]
            have hcol : specUnsetPrune (setSpec (setChild m k) (c2 :: rs) v) (c2 :: rs)
                = .map [] := by
              rw [hc0]; exact freshCollapse (c2 :: rs) v (by simp)
            rw [hcol]
            simp [isEmptyMap, nodeAt, alookup_aerase_self]
          | list xs =>
            have hc0 : setChild m k = .map [] := by unfold setChild; rw [hl]
            have hcol : specUnsetPrune (setSpec (setChild m k) (c2 :: rs) v) (c2 :: rs)
                = .map [] := by
              rw [hc0]; exact freshCollapse (c2 :: rs) v (by simp)
            rw [hcol]
            simp [isEmptyMap, nodeAt, alookup_aerase_self]
        | none =>
          have hc0 : setChild m k = .map [] := by unfold setChild; rw [hl]
          have hcol : specUnsetPrune (setSpec (setChild m k) (c2 :: rs) v) (c2 :: rs)
              = .map [] := by
            rw [hc0]; exact freshCollapse (c2 :: rs) v (by simp)
          rw [hcol]
          simp [isEmptyMap, nodeAt, alookup_aerase_self]

/-- C3: for every document (a mapping) D, key path P and value V,
unset(set(D, P, V), P) succeeds and restores D's shape along P's ancestor
chain: the unset prunes away every ancestor prefix that did not address a
mapping in D — i.e. every empty mapping introduced solely by the set to host
P is removed again, leaving nothing at those prefixes. -/
theorem claim_C3 (m : List (String × Doc)) (p : String) (v : Doc) (S : Doc)
    (hset : set_item_in_config (.map m) p v = .ok S) :
    unset_item_from_config S p = .ok (specUnsetPrune S (pySplitDot p)) ∧
    ∀ j, 1 ≤ j → j < (pySplitDot p).length →
      isMapAt (.map m) ((pySplitDot p).take j) = false →
      nodeAt (specUnsetPrune S (pySplitDot p)) ((pySplitDot p).take j) = none := by
  have hS : S = setSpec (.map m) (pySplitDot p) v := by
    have h := setLoop_eq_setSpec (pySplitDot p) m v
    unfold set_item_in_config at hset
    rw [h] at hset
    exact (Option.some.inj (by simpa using hset.symm))
  subst hS
  constructor
  · exact unset_ok _ p (resolvable_setSpec (pySplitDot p) m v (pySplitDot_ne_nil p))
  · intro j h1 h2 hmap
    exact introduced_pruned (pySplitDot p) m v j h1 h2 hmap

/-- Witness for C3: D = {a: 5} (so the prefix "a" does not address a
mapping), P = "a.b", V = 7. -/
theorem claim_C3_witness :
    set_item_in_config (.map [("a", .sc (.int 5))]) "a.b" (.sc (.int 7))
        = .ok (.map [("a", .map [("b", .sc (.int 7))])]) ∧
    unset_item_from_config (.map [("a", .map [("b", .sc (.int 7))])]) "a.b"
        = .ok (specUnsetPrune (.map [("a", .map [("b", .sc (.int 7))])])
            (pySplitDot "a.b")) :=
  ⟨rfl,
    (claim_C3 [("a", .sc (.int 5))] "a.b" (.sc (.int 7))
      (.map [("a", .map [("b", .sc (.int 7))])]) rfl).1⟩

theorem intShape_eq_digitsCore : ∀ cs : List Char, intShape cs = digitsCore cs := by
  intro cs
  induction cs with
  | nil => rfl
  | cons c rest ih =>
    cases rest with
    | nil => simp [intShape, digitsCore]
    | cons c2 rs =>
      simp only [intShape, digitsCore, List.isEmpty_cons, Bool.not_false,
        Bool.true_and, List.all_cons] at ih ⊢
      rw [ih]

theorem match_dot_ne (r : Char) (rs : List Char) (hdot : r ≠ '.') :
    (match r :: rs with
     | '.' :: fr => fr.all Char.isDigit
     | _ => false) = false := by
  split
  next fr heq =>
    injection heq with h1 h2
    exact absurd h1 hdot
  next => rfl

theorem floatTail_eq : ∀ rest : List Char,
    floatTail rest =
      (match rest.dropWhile Char.isDigit with
       | '.' :: fr => fr.all Char.isDigit
       | _ => false) := by
  intro rest
  induction rest with
  | nil => rfl
  | cons r rs ih =>
    by_cases hdot : r = '.'
    · subst hdot
      have hd : ('.' : Char).isDigit = false := by decide
      simp only [floatTail, List.dropWhile_cons, hd]
      simp
    · by_cases hd : r.isDigit
      · simp only [floatTail, if_neg hdot, hd, Bool.true_and, List.dropWhile_cons,
          if_pos hd]
        exact ih
      · simp only [floatTail, if_neg hdot, List.dropWhile_cons, hd,
          Bool.false_eq_true, if_false, Bool.false_and]
        exact (match_dot_ne r rs hdot).symm

theorem floatShape_eq_floatCore : ∀ cs : List Char, floatShape cs = floatCore cs := by
  intro cs
  cases cs with
  | nil => rfl
  | cons c rest =>
    simp only [floatShape, floatCore, List.takeWhile_cons, List.dropWhile_cons]
    by_cases hd : c.isDigit
    · rw [if_pos hd, if_pos hd]
      simp only [List.isEmpty_cons, Bool.not_false, Bool.true_and, hd, Bool.true_and]
      rw [floatTail_eq rest]
    · rw [if_neg hd, if_neg hd]
      simp only [List.isEmpty_nil, Bool.not_true, Bool.false_and, hd, Bool.false_and]

theorem all_getLast (p : Char → Bool) : ∀ (cs : List Char) (c : Char),
    cs.all p = true → cs.getLast? = some c → p c = true := by
  intro cs
  induction cs with
  | nil => intro c _ h; simp at h
  | cons a rest ih =>
    intro c hall hlast
    cases rest with
    | nil =>
      rw [List.getLast?_singleton] at hlast
      cases hlast
      simpa using hall
    | cons b rs =>
      rw [List.getLast?_cons_cons] at hlast
      rw [List.all_cons, Bool.and_eq_true] at hall
      exact ih c hall.2 hlast

theorem digitsCore_no_nl (cs : List Char)
    (h : cs.getLast? = some (Char.ofNat 10)) : digitsCore cs = false := by
  have hnl : (Char.ofNat 10).isDigit = false := by decide
  unfold digitsCore
  cases hall : cs.all Char.isDigit with
  | true => rw [all_getLast Char.isDigit cs (Char.ofNat 10) hall h] at hnl; cases hnl
  | false => simp

theorem floatTail_no_nl : ∀ (rest : List Char),
    rest.getLast? = some (Char.ofNat 10) → floatTail rest = false := by
  intro rest
  induction rest with
  | nil => intro h; simp at h
  | cons r rs ih =>
    intro h
    cases rs with
    | nil =>
      rw [List.getLast?_singleton] at h
      cases h
      have h1 : (Char.ofNat 10) ≠ '.' := by decide
      have h2 : (Char.ofNat 10).isDigit = false := by decide
      simp [floatTail, h1, h2]
    | cons r2 rs2 =>
      rw [List.getLast?_cons_cons] at h
      have hft := ih h
      by_cases hdot : r = '.'
      · subst hdot
        have hall : (r2 :: rs2).all Char.isDigit = false := by
          cases hall2 : (r2 :: rs2).all Char.isDigit with
          | false => rfl
          | true =>
            have := all_getLast Char.isDigit (r2 :: rs2) (Char.ofNat 10) hall2 h
            exact absurd this (by decide)
        simp [floatTail, hall]
      · rw [show floatTail (r :: r2 :: rs2)
            = if r = '.' then (r2 :: rs2).all Char.isDigit
              else r.isDigit && floatTail (r2 :: rs2) from rfl,
          if_neg hdot, hft]
        simp

theorem floatCore_no_nl (cs : List Char)
    (h : cs.getLast? = some (Char.ofNat 10)) : floatCore cs = false := by
  rw [← floatShape_eq_floatCore]
  cases cs with
  | nil => simp at h
  | cons c rest =>
    cases rest with
    | nil =>
      rw [List.getLast?_singleton] at h
      cases h
      have h2 : (Char.ofNat 10).isDigit = false := by decide
      simp [floatShape, h2]
    | cons r2 rs2 =>
      rw [List.getLast?_cons_cons] at h
      simp [floatShape, floatTail_no_nl (r2 :: rs2) h]

theorem reDollar_digits (cs : List Char) :
    reDollar digitsCore cs = intShape (stripNL cs) := by
  by_cases h : cs.getLast? = some (Char.ofNat 10)
  · simp [reDollar, stripNL, h, digitsCore_no_nl cs h, intShape_eq_digitsCore]
  · simp [reDollar, stripNL, h, intShape_eq_digitsCore]

theorem reDollar_float (cs : List Char) :
    reDollar floatCore cs = floatShape (stripNL cs) := by
  by_cases h : cs.getLast? = some (Char.ofNat 10)
  · simp [reDollar, stripNL, h, floatCore_no_nl cs h, floatShape_eq_floatCore]
  · simp [reDollar, stripNL, h, floatShape_eq_floatCore]

/-- C9 (amended): parse_value coincides with the amended coercion
specification: digit strings (the regex end anchor also tolerating one
trailing newline) become integers, digits-dot-optional-digits become floats
(so "3." parses to the float 3.0), case-insensitive "true"/"false" become
booleans, and every other string is returned as itself; in particular "42" →
integer 42, "3.14" → float 3.14, "True" → boolean true, "hello" → "hello". -/
theorem claim_C9 (s : String) :
    parse_value s = coerceSpec s ∧
    (parse_value "42" = .sc (.int 42) ∧
      parse_value "3.14" = .sc (.fl 314 2) ∧
      parse_value "True" = .sc (.bool true) ∧
      parse_value "hello" = .sc (.str "hello") ∧
      parse_value "3." = .sc (.fl 3 0) ∧
      parse_value "42\n" = .sc (.int 42)) := by
  refine ⟨?_, rfl, rfl, rfl, rfl, rfl, rfl⟩
  simp only [parse_value, coerceSpec, reDollar_digits, reDollar_float]

/-- C9 counterexample to the claim as stated: "3." is not a digit-dot-digits
string (no digits follow the dot), so the claim maps it to itself; the regex
digits-dot-digits-star accepts it and the code returns the float 3.0. -/
theorem claim_C9_cx :
    parse_value "3." = .sc (.fl 3 0) ∧ Doc.sc (.fl 3 0) ≠ Doc.sc (.str "3.") :=
  ⟨rfl, by intro h; injection h with h2; cases h2⟩

theorem HKeep_refl (L0 : Nat) (H : Heap) : HKeep L0 H H := fun _ _ => rfl

theorem HKeep_trans {L0 : Nat} {H1 H2 H3 : Heap}
    (h12 : HKeep L0 H1 H2) (h23 : HKeep L0 H2 H3) : HKeep L0 H1 H3 :=
  fun j hj => (h23 j hj).trans (h12 j hj)

theorem hread_congr {H H2 : Heap} {i : Nat}
    (h : H2.get? i = H.get? i) : hread H2 i = hread H i := by
  unfold hread
  rw [List.getD_eq_get?, List.getD_eq_get?, h]

theorem HKeep_set (L0 : Nat) (H : Heap) (i : Nat) (n : Node) (hi : L0 ≤ i) :
    HKeep L0 H (H.set i n) := by
  intro j hj
  exact List.get?_set_ne n H (by omega)

theorem HKeep_append (L0 : Nat) (H : Heap) (ext : Heap) (hlen : L0 ≤ H.length) :
    HKeep L0 H (H ++ ext) := by
  intro j hj
  exact List.get?_append (by omega)

theorem hread_set_ne (H : Heap) (i j : Nat) (n : Node) (h : j ≠ i) :
    hread (H.set i n) j = hread H j :=
  hread_congr (List.get?_set_ne n H (fun he => h he.symm))

theorem hread_set_self (H : Heap) (i : Nat) (n : Node) (h : i < H.length) :
    hread (H.set i n) i = n := by
  simp [hread, List.getD_eq_get?, List.get?_set_eq, h]

theorem hread_ge (H : Heap) (a : Nat) (h : H.length ≤ a) :
    hread H a = .sc .null := by
  unfold hread
  rw [List.getD_eq_get?, List.get?_len_le h]
  rfl

theorem hread_append_lt (H ext : Heap) (i : Nat) (h : i < H.length) :
    hread (H ++ ext) i = hread H i :=
  hread_congr (List.get?_append h)

theorem hread_append_self (H : Heap) (n : Node) :
    hread (H ++ [n]) H.length = n := by
  simp [hread, List.getD_eq_get?, List.get?_concat_length]

theorem hread_map_lt (H : Heap) (a : Nat) (es : List (String × Nat))
    (h : hread H a = .map es) : a < H.length := by
  by_contra hlt
  rw [hread_ge H a (by omega)] at h
  cases h

theorem RegionOK_watermark (H : Heap) : RegionOK H.length H := by
  intro i hi c hc
  rw [hread_ge H i hi] at hc
  simp [nodeKids] at hc

theorem mem_map_aset (es : List (String × Nat)) (k : String) (e : Nat) :
    ∀ c, c ∈ (aset es k e).map (fun x => x.2) →
      (c ∈ es.map fun x => x.2) ∨ c = e := by
  induction es with
  | nil =>
    intro c h
    simp [aset] at h
    exact Or.inr h
  | cons hd rest ih =>
    obtain ⟨k1, v1⟩ := hd
    intro c h
    by_cases hk : k1 = k
    · rw [show aset ((k1, v1) :: rest) k e = (k1, e) :: rest from by simp [aset, hk]] at h
      rw [List.map_cons, List.mem_cons] at h
      rcases h with h | h
      · exact Or.inr h
      · exact Or.inl (by rw [List.map_cons, List.mem_cons]; exact Or.inr h)
    · rw [show aset ((k1, v1) :: rest) k e = (k1, v1) :: aset rest k e from by
        simp [aset, hk]] at h
      rw [List.map_cons, List.mem_cons] at h
      rcases h with h | h
      · exact Or.inl (by rw [List.map_cons, List.mem_cons]; exact Or.inl h)
      · rcases ih c h with h2 | h2
        · exact Or.inl (by rw [List.map_cons, List.mem_cons]; exact Or.inr h2)
        · exact Or.inr h2

theorem mem_map_aerase (es : List (String × Nat)) (k : String) (c : Nat)
    (h : c ∈ (aerase es k).map fun x => x.2) : c ∈ es.map fun x => x.2 := by
  simp only [aerase, List.mem_map] at h ⊢
  obtain ⟨x, hx, hc⟩ := h
  exact ⟨x, List.mem_of_mem_filter hx, hc⟩

theorem RegionOK_set (L0 : Nat) (H : Heap) (i : Nat) (n : Node)
    (hH : RegionOK L0 H) (hn : ∀ c ∈ nodeKids n, L0 ≤ c) :
    RegionOK L0 (H.set i n) := by
  intro j hj c hc
  by_cases hij : j = i
  · subst hij
    by_cases hlen : j < H.length
    · rw [hread_set_self H j n hlen] at hc
      exact hn c hc
    · rw [List.set_eq_of_length_le (by omega)] at hc
      exact hH j hj c hc
  · rw [hread_set_ne H i j n hij] at hc
    exact hH j hj c hc

theorem RegionOK_append1 (L0 : Nat) (H : Heap) (n : Node)
    (hH : RegionOK L0 H) (hn : ∀ c ∈ nodeKids n, L0 ≤ c) :
    RegionOK L0 (H ++ [n]) := by
  intro j hj c hc
  by_cases h1 : j < H.length
  · rw [hread_append_lt H [n] j h1] at hc
    exact hH j hj c hc
  · by_cases h2 : j = H.length
    · subst h2
      rw [hread_append_self] at hc
      exact hn c hc
    · rw [hread_ge (H ++ [n]) j (by simp; omega)] at hc
      simp [nodeKids] at hc

theorem readList_agree (f f2 : Nat → Option Doc)
    (hf : ∀ a d, f a = some d → f2 a = some d) :
    ∀ (elems : List Nat) (ds : List Doc),
      readList f elems = some ds → readList f2 elems = some ds := by
  intro elems
  induction elems with
  | nil => intro ds h; exact h
  | cons a rest ih =>
    intro ds h
    simp only [readList] at h ⊢
    cases hfa : f a with
    | none => rw [hfa] at h; cases h
    | some d =>
      rw [hfa] at h
      cases hrest : readList f rest with
      | none => rw [hrest] at h; cases h
      | some ds2 =>
        rw [hrest] at h
        rw [hf a d hfa, ih ds2 hrest]
        exact h

theorem readAssoc_agree (f f2 : Nat → Option Doc)
    (hf : ∀ a d, f a = some d → f2 a = some d) :
    ∀ (es : List (String × Nat)) (ds : List (String × Doc)),
      readAssoc f es = some ds → readAssoc f2 es = some ds := by
  intro es
  induction es with
  | nil => intro ds h; exact h
  | cons x rest ih =>
    obtain ⟨k, a⟩ := x
    intro ds h
    simp only [readAssoc] at h ⊢
    cases hfa : f a with
    | none => rw [hfa] at h; cases h
    | some d =>
      rw [hfa] at h
      cases hrest : readAssoc f rest with
      | none => rw [hrest] at h; cases h
      | some ds2 =>
        rw [hrest] at h
        rw [hf a d hfa, ih ds2 hrest]
        exact h

theorem readDoc_succ_none (f : Nat) (H : Heap) (a : Nat)
    (hga : H.get? a = none) : readDoc (f + 1) H a = none := by
  simp only [readDoc]
  rw [hga]

theorem readDoc_succ_sc (f : Nat) (H : Heap) (a : Nat) (s : Sc)
    (hga : H.get? a = some (.sc s)) : readDoc (f + 1) H a = some (.sc s) := by
  simp only [readDoc]
  rw [hga]

theorem readDoc_succ_list (f : Nat) (H : Heap) (a : Nat) (elems : List Nat)
    (hga : H.get? a = some (.list elems)) :
    readDoc (f + 1) H a = (readList (readDoc f H) elems).map .list := by
  simp only [readDoc]
  rw [hga]

theorem readDoc_succ_map (f : Nat) (H : Heap) (a : Nat) (es : List (String × Nat))
    (hga : H.get? a = some (.map es)) :
    readDoc (f + 1) H a = (readAssoc (readDoc f H) es).map .map := by
  simp only [readDoc]
  rw [hga]

theorem readDoc_agree : ∀ (fuel : Nat) (H H2 : Heap) (a : Nat) (d : Doc),
    HKeep H.length H H2 → readDoc fuel H a = some d → readDoc fuel H2 a = some d := by
  intro fuel
  induction fuel with
  | zero => intro H H2 a d _ h; cases h
  | succ f ih =>
    intro H H2 a d hkeep h
    cases hga : H.get? a with
    | none => rw [readDoc_succ_none f H a hga] at h; cases h
    | some n =>
      have halt : a < H.length := (List.get?_eq_some.mp hga).1
      have hga2 : H2.get? a = some n := (hkeep a halt).trans hga
      cases n with
      | sc s =>
        rw [readDoc_succ_sc f H a s hga] at h
        rw [readDoc_succ_sc f H2 a s hga2]
        exact h
      | list elems =>
        rw [readDoc_succ_list f H a elems hga] at h
        rw [readDoc_succ_list f H2 a elems hga2]
        cases hrl : readList (readDoc f H) elems with
        | none => rw [hrl] at h; cases h
        | some ds =>
          rw [hrl] at h
          rw [readList_agree (readDoc f H) (readDoc f H2)
            (fun a2 d2 h2 => ih H H2 a2 d2 hkeep h2) elems ds hrl]
          exact h
      | map es =>
        rw [readDoc_succ_map f H a es hga] at h
        rw [readDoc_succ_map f H2 a es hga2]
        cases hrl : readAssoc (readDoc f H) es with
        | none => rw [hrl] at h; cases h
        | some ds =>
          rw [hrl] at h
          rw [readAssoc_agree (readDoc f H) (readDoc f H2)
            (fun a2 d2 h2 => ih H H2 a2 d2 hkeep h2) es ds hrl]
          exact h

theorem alookup_mem_values {α : Type} : ∀ (es : List (String × α)) (k : String) (c : α),
    alookup es k = some c → c ∈ es.map fun x => x.2 := by
  intro es
  induction es with
  | nil => intro k c h; cases h
  | cons hd rest ih =>
    obtain ⟨k1, v1⟩ := hd
    intro k c h
    by_cases hk : k1 = k
    · rw [show alookup ((k1, v1) :: rest) k = some v1 from by simp [alookup, hk]] at h
      cases h
      simp
    · rw [show alookup ((k1, v1) :: rest) k = alookup rest k from by simp [alookup, hk]] at h
      simp only [List.map_cons, List.mem_cons]
      exact Or.inr (ih k c h)

mutual

theorem allocDoc_ext : ∀ (d : Doc) (H : Heap), ∃ ext, (allocDoc d H).1 = H ++ ext
  | .sc s, H => ⟨[.sc s], rfl⟩
  | .list xs, H => by
    obtain ⟨e1, he1⟩ := allocList_ext xs H
    simp only [allocDoc]
    exact ⟨e1 ++ [.list (allocList xs H).2], by rw [he1, List.append_assoc]⟩
  | .map es, H => by
    obtain ⟨e1, he1⟩ := allocAssoc_ext es H
    simp only [allocDoc]
    exact ⟨e1 ++ [.map (allocAssoc es H).2], by rw [he1, List.append_assoc]⟩

theorem allocList_ext : ∀ (ds : List Doc) (H : Heap), ∃ ext, (allocList ds H).1 = H ++ ext
  | [], H => ⟨[], by simp [allocList]⟩
  | d :: ds, H => by
    obtain ⟨e1, he1⟩ := allocDoc_ext d H
    obtain ⟨e2, he2⟩ := allocList_ext ds (allocDoc d H).1
    simp only [allocList]
    exact ⟨e1 ++ e2, by rw [he2, he1, List.append_assoc]⟩

theorem allocAssoc_ext : ∀ (es : List (String × Doc)) (H : Heap),
    ∃ ext, (allocAssoc es H).1 = H ++ ext
  | [], H => ⟨[], by simp [allocAssoc]⟩
  | (k, d) :: ds, H => by
    obtain ⟨e1, he1⟩ := allocDoc_ext d H
    obtain ⟨e2, he2⟩ := allocAssoc_ext ds (allocDoc d H).1
    simp only [allocAssoc]
    exact ⟨e1 ++ e2, by rw [he2, he1, List.append_assoc]⟩

end

mutual

theorem allocDoc_ok (L0 : Nat) : ∀ (d : Doc) (H : Heap),
    RegionOK L0 H → L0 ≤ H.length →
    RegionOK L0 (allocDoc d H).1 ∧ L0 ≤ (allocDoc d H).2 ∧
      H.length ≤ (allocDoc d H).1.length
  | .sc s, H => fun hreg hlen => by
    simp only [allocDoc]
    refine ⟨RegionOK_append1 L0 H (.sc s) hreg (by simp [nodeKids]), hlen, by simp⟩
  | .list xs, H => fun hreg hlen => by
    obtain ⟨hreg1, hall, hlen1⟩ := allocList_ok L0 xs H hreg hlen
    simp only [allocDoc]
    refine ⟨RegionOK_append1 L0 _ _ hreg1 (by simpa [nodeKids] using hall), by omega, by
      simp; omega⟩
  | .map es, H => fun hreg hlen => by
    obtain ⟨hreg1, hall, hlen1⟩ := allocAssoc_ok L0 es H hreg hlen
    simp only [allocDoc]
    refine ⟨RegionOK_append1 L0 _ _ hreg1 (by simpa [nodeKids] using hall), by omega, by
      simp; omega⟩

theorem allocList_ok (L0 : Nat) : ∀ (ds : List Doc) (H : Heap),
    RegionOK L0 H → L0 ≤ H.length →
    RegionOK L0 (allocList ds H).1 ∧ (∀ a ∈ (allocList ds H).2, L0 ≤ a) ∧
      H.length ≤ (allocList ds H).1.length
  | [], H => fun hreg hlen => by
    simp only [allocList]
    exact ⟨hreg, by simp, le_refl _⟩
  | d :: ds, H => fun hreg hlen => by
    obtain ⟨hreg1, ha, hlen1⟩ := allocDoc_ok L0 d H hreg hlen
    obtain ⟨hreg2, hall, hlen2⟩ := allocList_ok L0 ds (allocDoc d H).1 hreg1 (by omega)
    simp only [allocList]
    refine ⟨hreg2, ?_, by omega⟩
    intro a hmem
    simp only [List.mem_cons] at hmem
    rcases hmem with h | h
    · subst h; exact ha
    · exact hall a h

theorem allocAssoc_ok (L0 : Nat) : ∀ (es : List (String × Doc)) (H : Heap),
    RegionOK L0 H → L0 ≤ H.length →
    RegionOK L0 (allocAssoc es H).1 ∧
      (∀ c ∈ (allocAssoc es H).2.map (fun x => x.2), L0 ≤ c) ∧
      H.length ≤ (allocAssoc es H).1.length
  | [], H => fun hreg hlen => by
    simp only [allocAssoc]
    exact ⟨hreg, by simp, le_refl _⟩
  | (k, d) :: ds, H => fun hreg hlen => by
    obtain ⟨hreg1, ha, hlen1⟩ := allocDoc_ok L0 d H hreg hlen
    obtain ⟨hreg2, hall, hlen2⟩ := allocAssoc_ok L0 ds (allocDoc d H).1 hreg1 (by omega)
    simp only [allocAssoc]
    refine ⟨hreg2, ?_, by omega⟩
    intro c hmem
    simp only [List.map_cons, List.mem_cons] at hmem
    rcases hmem with h | h
    · subst h; exact ha
    · exact hall c h

end

/-- The common heap step creating a fresh empty dict at an intermediate
segment: allocate {}, link it under the key. -/
theorem freshmap_frame (L0 : Nat) (H : Heap) (a : Nat) (es : List (String × Nat))
    (k : String) (hreg : RegionOK L0 H) (ha : L0 ≤ a) (hlen : L0 ≤ H.length)
    (hn : hread H a = .map es) :
    HKeep L0 H ((H ++ [Node.map []]).set a (.map (aset es k H.length))) ∧
    RegionOK L0 ((H ++ [Node.map []]).set a (.map (aset es k H.length))) ∧
    L0 ≤ ((H ++ [Node.map []]).set a (.map (aset es k H.length))).length := by
  refine ⟨?_, ?_, ?_⟩
  · exact HKeep_trans (HKeep_append L0 H [Node.map []] hlen)
      (HKeep_set L0 (H ++ [Node.map []]) a _ ha)
  · apply RegionOK_set
    · exact RegionOK_append1 L0 H (Node.map []) hreg (by simp [nodeKids])
    · intro c hc
      rcases mem_map_aset es k H.length c hc with h | h
      · exact hreg a ha c (by rw [hn]; exact h)
      · omega
  · simp only [List.length_set, List.length_append, List.length_cons, List.length_nil]
    omega

theorem setLoopH_frame (L0 : Nat) : ∀ (segs : List String) (H : Heap) (a v : Nat),
    RegionOK L0 H → L0 ≤ a → L0 ≤ H.length →
    HKeep L0 H (setLoopH H a segs v).1 := by
  intro segs
  induction segs with
  | nil => exact fun H a v _ _ _ => HKeep_refl L0 H
  | cons k rest ih =>
    intro H a v hreg ha hlen
    cases rest with
    | nil =>
      cases hn : hread H a with
      | map es =>
        rw [show setLoopH H a [k] v = (hwrite H a (.map (aset es k v)), .ok ()) from by
          simp [setLoopH, hn]]
        exact HKeep_set L0 H a _ ha
      | sc s =>
        rw [show setLoopH H a [k] v = (H, .error .typeError) from by simp [setLoopH, hn]]
        exact HKeep_refl L0 H
      | list l =>
        rw [show setLoopH H a [k] v = (H, .error .typeError) from by simp [setLoopH, hn]]
        exact HKeep_refl L0 H
    | cons c2 rs =>
      cases hn : hread H a with
      | sc s =>
        cases s with
        | str s0 =>
          simp only [setLoopH, hpyIn, hn]
          split <;> exact HKeep_refl L0 H
        | int n => simp only [setLoopH, hpyIn, hn]; exact HKeep_refl L0 H
        | fl n e => simp only [setLoopH, hpyIn, hn]; exact HKeep_refl L0 H
        | bool b => simp only [setLoopH, hpyIn, hn]; exact HKeep_refl L0 H
        | null => simp only [setLoopH, hpyIn, hn]; exact HKeep_refl L0 H
      | list l =>
        simp only [setLoopH, hpyIn, hn]
        split <;> exact HKeep_refl L0 H
      | map es =>
        cases hl : alookup es k with
        | none =>
          have hm : ahas es k = false := by simp [ahas, hl]
          rw [show setLoopH H a (k :: c2 :: rs) v
              = setLoopH ((H ++ [Node.map []]).set a (.map (aset es k H.length)))
                  H.length (c2 :: rs) v from by
            simp [setLoopH, hpyIn, hn, hm]]
          obtain ⟨hk1, hr1, hl1⟩ := freshmap_frame L0 H a es k hreg ha hlen hn
          exact HKeep_trans hk1 (ih _ H.length v hr1 hlen hl1)
        | some c =>
          have hm : ahas es k = true := by simp [ahas, hl]
          have hc : L0 ≤ c :=
            hreg a ha c (by rw [hn]; exact alookup_mem_values es k c hl)
          cases hdict : nodeIsDict (hread H c) with
          | true =>
            rw [show setLoopH H a (k :: c2 :: rs) v = setLoopH H c (c2 :: rs) v from by
              simp [setLoopH, hpyIn, hn, hm, hl, hdict]]
            exact ih H c v hreg hc hlen
          | false =>
            rw [show setLoopH H a (k :: c2 :: rs) v
                = setLoopH ((H ++ [Node.map []]).set a (.map (aset es k H.length)))
                    H.length (c2 :: rs) v from by
              simp [setLoopH, hpyIn, hn, hm, hl, hdict]]
            obtain ⟨hk1, hr1, hl1⟩ := freshmap_frame L0 H a es k hreg ha hlen hn
            exact HKeep_trans hk1 (ih _ H.length v hr1 hlen hl1)

theorem addLoopH_frame (L0 : Nat) : ∀ (segs : List String) (H : Heap) (a v : Nat),
    RegionOK L0 H → L0 ≤ a → L0 ≤ H.length →
    HKeep L0 H (addLoopH H a segs v).1 := by
  intro segs
  induction segs with
  | nil => exact fun H a v _ _ _ => HKeep_refl L0 H
  | cons k rest ih =>
    intro H a v hreg ha hlen
    cases rest with
    | nil =>
      cases hn : hread H a with
      | sc s =>
        cases s with
        | str s0 => simp only [addLoopH, hpyIn, hn]; split <;> exact HKeep_refl L0 H
        | int n => simp only [addLoopH, hpyIn, hn]; exact HKeep_refl L0 H
        | fl n e => simp only [addLoopH, hpyIn, hn]; exact HKeep_refl L0 H
        | bool b => simp only [addLoopH, hpyIn, hn]; exact HKeep_refl L0 H
        | null => simp only [addLoopH, hpyIn, hn]; exact HKeep_refl L0 H
      | list l =>
        simp only [addLoopH, hpyIn, hn]
        split <;> exact HKeep_refl L0 H
      | map es =>
        have halt : a < H.length := hread_map_lt H a es hn
        have hrd : hread ((H ++ [Node.list []]).set a (.map (aset es k H.length))) H.length
            = Node.list [] := by
          rw [hread_set_ne _ a H.length _ (by omega), hread_append_self]
        have hfresh : HKeep L0 H
            ((((H ++ [Node.list []]).set a (.map (aset es k H.length))).set H.length
              (.list ([] ++ [v])))) :=
          HKeep_trans (HKeep_append L0 H _ hlen)
            (HKeep_trans (HKeep_set L0 _ a _ ha) (HKeep_set L0 _ H.length _ hlen))
        cases hl : alookup es k with
        | none =>
          have hm : ahas es k = false := by simp [ahas, hl]
          simp only [addLoopH, hpyIn, hn, hm, Bool.false_eq_true, if_false, hrd]
          exact hfresh
        | some c =>
          have hm : ahas es k = true := by simp [ahas, hl]
          have hc : L0 ≤ c :=
            hreg a ha c (by rw [hn]; exact alookup_mem_values es k c hl)
          cases hnc : hread H c with
          | list xs =>
            simp only [addLoopH, hpyIn, hn, hm, if_true, hl, hnc, nodeIsList,
              Bool.not_true, Bool.false_eq_true, if_false]
            exact HKeep_set L0 H c _ hc
          | sc s =>
            cases s with
            | str s0 =>
              simp only [addLoopH, hpyIn, hn, hm, if_true, hl, hnc, nodeIsList,
                Bool.not_true, Bool.false_eq_true, if_false]
              exact HKeep_refl L0 H
            | int n =>
              simp only [addLoopH, hpyIn, hn, hm, if_true, hl, hnc, nodeIsList,
                Bool.not_false, if_true, hrd]
              exact hfresh
            | fl n e =>
              simp only [addLoopH, hpyIn, hn, hm, if_true, hl, hnc, nodeIsList,
                Bool.not_false, if_true, hrd]
              exact hfresh
            | bool b =>
              simp only [addLoopH, hpyIn, hn, hm, if_true, hl, hnc, nodeIsList,
                Bool.not_false, if_true, hrd]
              exact hfresh
            | null =>
              simp only [addLoopH, hpyIn, hn, hm, if_true, hl, hnc, nodeIsList,
                Bool.not_false, if_true, hrd]
              exact hfresh
          | map m2 =>
            simp only [addLoopH, hpyIn, hn, hm, if_true, hl, hnc, nodeIsList,
              Bool.not_false, if_true, hrd]
            exact hfresh
    | cons c2 rs =>
      cases hn : hread H a with
      | sc s =>
        cases s with
        | str s0 =>
          simp only [addLoopH, hpyIn, hn]
          split <;> exact HKeep_refl L0 H
        | int n => simp only [addLoopH, hpyIn, hn]; exact HKeep_refl L0 H
        | fl n e => simp only [addLoopH, hpyIn, hn]; exact HKeep_refl L0 H
        | bool b => simp only [addLoopH, hpyIn, hn]; exact HKeep_refl L0 H
        | null => simp only [addLoopH, hpyIn, hn]; exact HKeep_refl L0 H
      | list l =>
        simp only [addLoopH, hpyIn, hn]
        split <;> exact HKeep_refl L0 H
      | map es =>
        cases hl : alookup es k with
        | none =>
          have hm : ahas es k = false := by simp [ahas, hl]
          rw [show addLoopH H a (k :: c2 :: rs) v
              = addLoopH ((H ++ [Node.map []]).set a (.map (aset es k H.length)))
                  H.length (c2 :: rs) v from by
            simp [addLoopH, hpyIn, hn, hm]]
          obtain ⟨hk1, hr1, hl1⟩ := freshmap_frame L0 H a es k hreg ha hlen hn
          exact HKeep_trans hk1 (ih _ H.length v hr1 hlen hl1)
        | some c =>
          have hm : ahas es k = true := by simp [ahas, hl]
          have hc : L0 ≤ c :=
            hreg a ha c (by rw [hn]; exact alookup_mem_values es k c hl)
          cases hdict : nodeIsDict (hread H c) with
          | true =>
            rw [show addLoopH H a (k :: c2 :: rs) v = addLoopH H c (c2 :: rs) v from by
              simp [addLoopH, hpyIn, hn, hm, hl, hdict]]
            exact ih H c v hreg hc hlen
          | false =>
            rw [show addLoopH H a (k :: c2 :: rs) v
                = addLoopH ((H ++ [Node.map []]).set a (.map (aset es k H.length)))
                    H.length (c2 :: rs) v from by
              simp [addLoopH, hpyIn, hn, hm, hl, hdict]]
            obtain ⟨hk1, hr1, hl1⟩ := freshmap_frame L0 H a es k hreg ha hlen hn
            exact HKeep_trans hk1 (ih _ H.length v hr1 hlen hl1)

theorem rmeLoopH_frame (L0 : Nat) (g : Heap → List String → Heap × Except PyErr Unit)
    (full : List String)
    (hg : ∀ (H : Heap) (p : List String), RegionOK L0 H → L0 ≤ H.length →
      HKeep L0 H (g H p).1 ∧ RegionOK L0 (g H p).1 ∧ (g H p).1.length = H.length) :
    ∀ (rem : List String) (H : Heap) (ci : Nat),
      RegionOK L0 H → L0 ≤ ci → L0 ≤ H.length →
      HKeep L0 H (rmeLoopH g full H ci rem).1 ∧
        RegionOK L0 (rmeLoopH g full H ci rem).1 ∧
        (rmeLoopH g full H ci rem).1.length = H.length := by
  intro rem
  induction rem with
  | nil => intro H ci hreg hci hlen; exact ⟨HKeep_refl L0 H, hreg, rfl⟩
  | cons k rest ih =>
    intro H ci hreg hci hlen
    cases hn : hread H ci with
    | sc s => simp only [rmeLoopH, hn]; exact ⟨HKeep_refl L0 H, hreg, by trivial⟩
    | list l => simp only [rmeLoopH, hn]; exact ⟨HKeep_refl L0 H, hreg, by trivial⟩
    | map es =>
      cases hl : alookup es k with
      | none => simp only [rmeLoopH, hn, hl]; exact ⟨HKeep_refl L0 H, hreg, by trivial⟩
      | some c =>
        cases hemp : nodeIsEmptyMap (hread H c) with
        | false =>
          have hc : L0 ≤ c :=
            hreg ci hci c (by rw [hn]; exact alookup_mem_values es k c hl)
          simp only [rmeLoopH, hn, hl, hemp, Bool.false_eq_true, if_false]
          exact ih H c hreg hc hlen
        | true =>
          have h1keep : HKeep L0 H (hwrite H ci (.map (aerase es k))) :=
            HKeep_set L0 H ci _ hci
          have h1reg : RegionOK L0 (hwrite H ci (.map (aerase es k))) := by
            apply RegionOK_set L0 H ci _ hreg
            intro c2 hc2
            exact hreg ci hci c2 (by rw [hn]; exact mem_map_aerase es k c2 hc2)
          have h1len : (hwrite H ci (.map (aerase es k))).length = H.length :=
            List.length_set H ci _
          obtain ⟨hgk, hgr, hgl⟩ := hg (hwrite H ci (.map (aerase es k))) full.dropLast
            h1reg (by omega)
          cases hgres : g (hwrite H ci (.map (aerase es k))) full.dropLast with
          | mk H2 r =>
            rw [hgres] at hgk hgr hgl
            simp only at hgk hgr hgl
            cases r with
            | error e =>
              simp only [rmeLoopH, hn, hl, hemp, if_true, hgres]
              exact ⟨HKeep_trans h1keep hgk, hgr, by rw [hgl, h1len]⟩
            | ok u =>
              have hl2 : L0 ≤ H2.length := by rw [hgl, h1len]; exact hlen
              obtain ⟨ihk, ihr, ihl⟩ := ih H2 ci hgr hci hl2
              simp only [rmeLoopH, hn, hl, hemp, if_true, hgres]
              exact ⟨HKeep_trans h1keep (HKeep_trans hgk ihk), ihr,
                by rw [ihl, hgl, h1len]⟩

theorem rmeH_frame (L0 : Nat) : ∀ (fuel : Nat) (H : Heap) (root : Nat) (path : List String),
    RegionOK L0 H → L0 ≤ root → L0 ≤ H.length →
    HKeep L0 H (rmeH fuel H root path).1 ∧ RegionOK L0 (rmeH fuel H root path).1 ∧
      (rmeH fuel H root path).1.length = H.length := by
  intro fuel
  induction fuel with
  | zero => intro H root path hreg _ _; exact ⟨HKeep_refl L0 H, hreg, rfl⟩
  | succ f ih =>
    intro H root path hreg hroot hlen
    cases path with
    | nil => simp only [rmeH, List.isEmpty_nil, if_true]; exact ⟨HKeep_refl L0 H, hreg, by trivial⟩
    | cons k rest =>
      simp only [rmeH, List.isEmpty_cons, Bool.false_eq_true, if_false]
      exact rmeLoopH_frame L0 (fun H2 p => rmeH f H2 root p) (k :: rest)
        (fun H2 p hr2 hl2 => ih H2 root p hr2 hroot hl2)
        (k :: rest) H root hreg hroot hlen

theorem unsetLoopH_frame (L0 root : Nat) (full : List String) (hroot : L0 ≤ root) :
    ∀ (segs : List String) (H : Heap) (a : Nat),
      RegionOK L0 H → L0 ≤ a → L0 ≤ H.length →
      HKeep L0 H (unsetLoopH root full H a segs).1 := by
  intro segs
  induction segs with
  | nil => exact fun H a _ _ _ => HKeep_refl L0 H
  | cons k rest ih =>
    intro H a hreg ha hlen
    cases rest with
    | nil =>
      cases hn : hread H a with
      | sc s =>
        cases s with
        | str s0 =>
          simp only [unsetLoopH, hpyIn, hn]
          split <;> exact HKeep_refl L0 H
        | int n => simp only [unsetLoopH, hpyIn, hn]; exact HKeep_refl L0 H
        | fl n e => simp only [unsetLoopH, hpyIn, hn]; exact HKeep_refl L0 H
        | bool b => simp only [unsetLoopH, hpyIn, hn]; exact HKeep_refl L0 H
        | null => simp only [unsetLoopH, hpyIn, hn]; exact HKeep_refl L0 H
      | list l =>
        simp only [unsetLoopH, hpyIn, hn]
        split <;> exact HKeep_refl L0 H
      | map es =>
        cases hl : alookup es k with
        | none =>
          have hm : ahas es k = false := by simp [ahas, hl]
          simp only [unsetLoopH, hpyIn, hn, hm, Bool.false_eq_true, if_false]
          exact HKeep_refl L0 H
        | some c =>
          have hm : ahas es k = true := by simp [ahas, hl]
          have h1keep : HKeep L0 H (hwrite H a (.map (aerase es k))) :=
            HKeep_set L0 H a _ ha
          have h1reg : RegionOK L0 (hwrite H a (.map (aerase es k))) := by
            apply RegionOK_set L0 H a _ hreg
            intro c2 hc2
            exact hreg a ha c2 (by rw [hn]; exact mem_map_aerase es k c2 hc2)
          have h1len : (hwrite H a (.map (aerase es k))).length = H.length :=
            List.length_set H a _
          obtain ⟨hrk, _, _⟩ := rmeH_frame L0 full.length
            (hwrite H a (.map (aerase es k))) root full.dropLast h1reg hroot (by omega)
          simp only [unsetLoopH, hpyIn, hn, hm, if_true, hl]
          exact HKeep_trans h1keep hrk
    | cons c2 rs =>
      cases hn : hread H a with
      | sc s =>
        cases s with
        | str s0 =>
          simp only [unsetLoopH, hpyIn, hn]
          split <;> exact HKeep_refl L0 H
        | int n => simp only [unsetLoopH, hpyIn, hn]; exact HKeep_refl L0 H
        | fl n e => simp only [unsetLoopH, hpyIn, hn]; exact HKeep_refl L0 H
        | bool b => simp only [unsetLoopH, hpyIn, hn]; exact HKeep_refl L0 H
        | null => simp only [unsetLoopH, hpyIn, hn]; exact HKeep_refl L0 H
      | list l =>
        simp only [unsetLoopH, hpyIn, hn]
        split <;> exact HKeep_refl L0 H
      | map es =>
        cases hl : alookup es k with
        | none =>
          have hm : ahas es k = false := by simp [ahas, hl]
          simp only [unsetLoopH, hpyIn, hn, hm, Bool.false_eq_true, if_false]
          exact HKeep_refl L0 H
        | some c =>
          have hm : ahas es k = true := by simp [ahas, hl]
          have hc : L0 ≤ c :=
            hreg a ha c (by rw [hn]; exact alookup_mem_values es k c hl)
          simp only [unsetLoopH, hpyIn, hn, hm, if_true, hl]
          exact ih H c hreg hc hlen

theorem removeLoopH_frame (L0 fuelEq : Nat) :
    ∀ (segs : List String) (H : Heap) (a v : Nat),
      RegionOK L0 H → L0 ≤ a → L0 ≤ H.length →
      HKeep L0 H (removeLoopH fuelEq H a segs v).1 := by
  intro segs
  induction segs with
  | nil => exact fun H a v _ _ _ => HKeep_refl L0 H
  | cons k rest ih =>
    intro H a v hreg ha hlen
    cases rest with
    | nil =>
      cases hn : hread H a with
      | sc s =>
        cases s with
        | str s0 =>
          simp only [removeLoopH, hpyIn, hn]
          split <;> exact HKeep_refl L0 H
        | int n => simp only [removeLoopH, hpyIn, hn]; exact HKeep_refl L0 H
        | fl n e => simp only [removeLoopH, hpyIn, hn]; exact HKeep_refl L0 H
        | bool b => simp only [removeLoopH, hpyIn, hn]; exact HKeep_refl L0 H
        | null => simp only [removeLoopH, hpyIn, hn]; exact HKeep_refl L0 H
      | list l =>
        simp only [removeLoopH, hpyIn, hn]
        split <;> exact HKeep_refl L0 H
      | map es =>
        cases hl : alookup es k with
        | none =>
          have hm : ahas es k = false := by simp [ahas, hl]
          simp only [removeLoopH, hpyIn, hn, hm, Bool.false_eq_true, if_false]
          exact HKeep_refl L0 H
        | some c =>
          have hm : ahas es k = true := by simp [ahas, hl]
          have hc : L0 ≤ c :=
            hreg a ha c (by rw [hn]; exact alookup_mem_values es k c hl)
          cases hnc : hread H c with
          | list xs =>
            simp only [removeLoopH, hpyIn, hn, hm, if_true, hl, hnc, nodeIsList,
              if_true]
            cases hrf : removeFirstH (fun x => pyEqH fuelEq H x v) xs with
            | none => exact HKeep_refl L0 H
            | some o =>
              cases o with
              | none => exact HKeep_refl L0 H
              | some ys => exact HKeep_set L0 H c _ hc
          | sc s =>
            cases s with
            | str s0 =>
              simp only [removeLoopH, hpyIn, hn, hm, if_true, hl, hnc, nodeIsList,
                if_true]
              exact HKeep_refl L0 H
            | int n =>
              simp only [removeLoopH, hpyIn, hn, hm, if_true, hl, hnc, nodeIsList,
                Bool.false_eq_true, if_false]
              exact HKeep_refl L0 H
            | fl n e =>
              simp only [removeLoopH, hpyIn, hn, hm, if_true, hl, hnc, nodeIsList,
                Bool.false_eq_true, if_false]
              exact HKeep_refl L0 H
            | bool b =>
              simp only [removeLoopH, hpyIn, hn, hm, if_true, hl, hnc, nodeIsList,
                Bool.false_eq_true, if_false]
              exact HKeep_refl L0 H
            | null =>
              simp only [removeLoopH, hpyIn, hn, hm, if_true, hl, hnc, nodeIsList,
                Bool.false_eq_true, if_false]
              exact HKeep_refl L0 H
          | map m2 =>
            simp only [removeLoopH, hpyIn, hn, hm, if_true, hl, hnc, nodeIsList,
              Bool.false_eq_true, if_false]
            exact HKeep_refl L0 H
    | cons c2 rs =>
      cases hn : hread H a with
      | sc s =>
        cases s with
        | str s0 =>
          simp only [removeLoopH, hpyIn, hn]
          split <;> exact HKeep_refl L0 H
        | int n => simp only [removeLoopH, hpyIn, hn]; exact HKeep_refl L0 H
        | fl n e => simp only [removeLoopH, hpyIn, hn]; exact HKeep_refl L0 H
        | bool b => simp only [removeLoopH, hpyIn, hn]; exact HKeep_refl L0 H
        | null => simp only [removeLoopH, hpyIn, hn]; exact HKeep_refl L0 H
      | list l =>
        simp only [removeLoopH, hpyIn, hn]
        split <;> exact HKeep_refl L0 H
      | map es =>
        cases hl : alookup es k with
        | none =>
          have hm : ahas es k = false := by simp [ahas, hl]
          simp only [removeLoopH, hpyIn, hn, hm, Bool.false_eq_true, if_false]
          exact HKeep_refl L0 H
        | some c =>
          have hm : ahas es k = true := by simp [ahas, hl]
          have hc : L0 ≤ c :=
            hreg a ha c (by rw [hn]; exact alookup_mem_values es k c hl)
          cases hdict : nodeIsDict (hread H c) with
          | true =>
            simp only [removeLoopH, hpyIn, hn, hm, if_true, hl, hdict, if_true]
            exact ih H c v hreg hc hlen
          | false =>
            simp only [removeLoopH, hpyIn, hn, hm, if_true, hl, hdict,
              Bool.false_eq_true, if_false]
            exact HKeep_refl L0 H

theorem readDoc_mono_succ : ∀ (f : Nat) (H : Heap) (a : Nat) (d : Doc),
    readDoc f H a = some d → readDoc (f + 1) H a = some d := by
  intro f
  induction f with
  | zero => intro H a d h; cases h
  | succ f ih =>
    intro H a d h
    cases hga : H.get? a with
    | none => rw [readDoc_succ_none f H a hga] at h; cases h
    | some n =>
      cases n with
      | sc s =>
        rw [readDoc_succ_sc f H a s hga] at h
        rw [readDoc_succ_sc (f + 1) H a s hga]
        exact h
      | list elems =>
        rw [readDoc_succ_list f H a elems hga] at h
        rw [readDoc_succ_list (f + 1) H a elems hga]
        cases hrl : readList (readDoc f H) elems with
        | none => rw [hrl] at h; cases h
        | some ds =>
          rw [hrl] at h
          rw [readList_agree (readDoc f H) (readDoc (f + 1) H)
            (fun a2 d2 hh => ih H a2 d2 hh) elems ds hrl]
          exact h
      | map es =>
        rw [readDoc_succ_map f H a es hga] at h
        rw [readDoc_succ_map (f + 1) H a es hga]
        cases hrl : readAssoc (readDoc f H) es with
        | none => rw [hrl] at h; cases h
        | some ds =>
          rw [hrl] at h
          rw [readAssoc_agree (readDoc f H) (readDoc (f + 1) H)
            (fun a2 d2 hh => ih H a2 d2 hh) es ds hrl]
          exact h

theorem readDoc_mono (f g : Nat) (hf : f ≤ g) :
    ∀ (H : Heap) (a : Nat) (d : Doc),
      readDoc f H a = some d → readDoc g H a = some d := by
  induction g, hf using Nat.le_induction with
  | base => exact fun H a d h => h
  | succ n hn ih => exact fun H a d h => readDoc_mono_succ n H a d (ih H a d h)

mutual

theorem allocDoc_read : ∀ (d : Doc) (H : Heap),
    readDoc (ddepth d) (allocDoc d H).1 (allocDoc d H).2 = some d
  | .sc s, H => by
    simp only [allocDoc, ddepth]
    exact readDoc_succ_sc 0 (H ++ [.sc s]) H.length s (List.get?_concat_length H _)
  | .list xs, H => by
    simp only [allocDoc, ddepth]
    rw [readDoc_succ_list (ldepth xs) _ _ (allocList xs H).2
      (List.get?_concat_length _ _)]
    rw [readList_agree (readDoc (ldepth xs) (allocList xs H).1)
      (readDoc (ldepth xs) ((allocList xs H).1 ++ [.list (allocList xs H).2]))
      (fun a2 d2 hh =>
        readDoc_agree (ldepth xs) (allocList xs H).1 _ a2 d2
          (HKeep_append _ _ _ le_rfl) hh)
      (allocList xs H).2 xs (allocList_read xs H)]
    rfl
  | .map es, H => by
    simp only [allocDoc, ddepth]
    rw [readDoc_succ_map (adepth es) _ _ (allocAssoc es H).2
      (List.get?_concat_length _ _)]
    rw [readAssoc_agree (readDoc (adepth es) (allocAssoc es H).1)
      (readDoc (adepth es) ((allocAssoc es H).1 ++ [.map (allocAssoc es H).2]))
      (fun a2 d2 hh =>
        readDoc_agree (adepth es) (allocAssoc es H).1 _ a2 d2
          (HKeep_append _ _ _ le_rfl) hh)
      (allocAssoc es H).2 es (allocAssoc_read es H)]
    rfl

theorem allocList_read : ∀ (xs : List Doc) (H : Heap),
    readList (readDoc (ldepth xs) (allocList xs H).1) (allocList xs H).2 = some xs
  | [], H => by simp [allocList, readList]
  | d :: ds, H => by
    simp only [allocList, ldepth]
    have hd2 : readDoc (ddepth d) (allocList ds (allocDoc d H).1).1
        (allocDoc d H).2 = some d := by
      obtain ⟨ext, hext⟩ := allocList_ext ds (allocDoc d H).1
      rw [hext]
      exact readDoc_agree _ _ _ _ _ (HKeep_append _ _ _ le_rfl) (allocDoc_read d H)
    have hd3 := readDoc_mono (ddepth d) (max (ddepth d) (ldepth ds))
      (le_max_left _ _) _ _ _ hd2
    have ht2 := readList_agree
      (readDoc (ldepth ds) (allocList ds (allocDoc d H).1).1)
      (readDoc (max (ddepth d) (ldepth ds)) (allocList ds (allocDoc d H).1).1)
      (fun a2 d2 hh =>
        readDoc_mono (ldepth ds) (max (ddepth d) (ldepth ds)) (le_max_right _ _)
          _ a2 d2 hh)
      (allocList ds (allocDoc d H).1).2 ds (allocList_read ds (allocDoc d H).1)
    simp only [readList, hd3, ht2]

theorem allocAssoc_read : ∀ (es : List (String × Doc)) (H : Heap),
    readAssoc (readDoc (adepth es) (allocAssoc es H).1) (allocAssoc es H).2 = some es
  | [], H => by simp [allocAssoc, readAssoc]
  | (k, d) :: ds, H => by
    simp only [allocAssoc, adepth]
    have hd2 : readDoc (ddepth d) (allocAssoc ds (allocDoc d H).1).1
        (allocDoc d H).2 = some d := by
      obtain ⟨ext, hext⟩ := allocAssoc_ext ds (allocDoc d H).1
      rw [hext]
      exact readDoc_agree _ _ _ _ _ (HKeep_append _ _ _ le_rfl) (allocDoc_read d H)
    have hd3 := readDoc_mono (ddepth d) (max (ddepth d) (adepth ds))
      (le_max_left _ _) _ _ _ hd2
    have ht2 := readAssoc_agree
      (readDoc (adepth ds) (allocAssoc ds (allocDoc d H).1).1)
      (readDoc (max (ddepth d) (adepth ds)) (allocAssoc ds (allocDoc d H).1).1)
      (fun a2 d2 hh =>
        readDoc_mono (adepth ds) (max (ddepth d) (adepth ds)) (le_max_right _ _)
          _ a2 d2 hh)
      (allocAssoc ds (allocDoc d H).1).2 ds (allocAssoc_read ds (allocDoc d H).1)
    simp only [readAssoc, hd3, ht2]

end

theorem alloc_keep (d : Doc) (H : Heap) : HKeep H.length H (allocDoc d H).1 := by
  obtain ⟨ext, hext⟩ := allocDoc_ext d H
  rw [hext]
  exact HKeep_append H.length H ext le_rfl

theorem readDoc_some_lt : ∀ (fuel : Nat) (H : Heap) (a : Nat) (d : Doc),
    readDoc fuel H a = some d → a < H.length := by
  intro fuel H a d h
  cases fuel with
  | zero => cases h
  | succ f =>
    cases hga : H.get? a with
    | none => rw [readDoc_succ_none f H a hga] at h; cases h
    | some n =>
      by_contra hge
      rw [List.get?_eq_none.mpr (by omega)] at hga
      cases hga

theorem HKeep_take (L0 : Nat) (H H2 : Heap) (hk : HKeep L0 H H2) :
    H2.take L0 = H.take L0 := by
  apply List.ext_get?
  intro j
  by_cases hj : j < L0
  · rw [List.get?_take hj, List.get?_take hj]
    exact hk j hj
  · rw [List.get?_eq_none.mpr (by simp [List.length_take]; omega),
      List.get?_eq_none.mpr (by simp [List.length_take]; omega)]

/-- C2: each of the four mutation operations set, unset, add_item and
remove_item leaves the caller's input document unchanged after the call: the
whole pre-existing region of the heap is returned identical (take-prefix
equality), so reading the input address back yields the same document, on the
error paths of the walk as well as on success; the input root lies below the
original allocation watermark while any document address the operation
returns is fresh, allocated at or above it — a new document, never the
caller's.  The copy handed to the mutating walk materialises back to exactly
the input document, so it is a faithful deepcopy. -/
theorem claim_C2 (fuel : Nat) (H : Heap) (a v : Nat) (p : String) (d : Doc)
    (h : readDoc fuel H a = some d) :
    a < H.length ∧
    readDoc (ddepth d) (allocDoc d H).1 (allocDoc d H).2 = some d ∧
    ((set_item_heap fuel H a p v).1.take H.length = H.take H.length ∧
      readDoc fuel (set_item_heap fuel H a p v).1 a = some d ∧
      freshOk H.length (set_item_heap fuel H a p v).2 = true) ∧
    ((unset_item_heap fuel H a p).1.take H.length = H.take H.length ∧
      readDoc fuel (unset_item_heap fuel H a p).1 a = some d ∧
      freshOk H.length (unset_item_heap fuel H a p).2 = true) ∧
    ((add_item_heap fuel H a p v).1.take H.length = H.take H.length ∧
      readDoc fuel (add_item_heap fuel H a p v).1 a = some d ∧
      freshOk H.length (add_item_heap fuel H a p v).2 = true) ∧
    ((remove_item_heap fuel H a p v).1.take H.length = H.take H.length ∧
      readDoc fuel (remove_item_heap fuel H a p v).1 a = some d ∧
      freshOk H.length (remove_item_heap fuel H a p v).2 = true) := by
  obtain ⟨hreg1, hroot1, hlen1⟩ :=
    allocDoc_ok H.length d H (RegionOK_watermark H) le_rfl
  have hk0 : HKeep H.length H (allocDoc d H).1 := alloc_keep d H
  have hkSet : HKeep H.length H (set_item_heap fuel H a p v).1 := by
    simp only [set_item_heap, h]
    exact HKeep_trans hk0
      (setLoopH_frame H.length (pySplitDot p) (allocDoc d H).1 (allocDoc d H).2 v
        hreg1 hroot1 hlen1)
  have hkUnset : HKeep H.length H (unset_item_heap fuel H a p).1 := by
    simp only [unset_item_heap, h]
    exact HKeep_trans hk0
      (unsetLoopH_frame H.length (allocDoc d H).2 (pySplitDot p) hroot1
        (pySplitDot p) (allocDoc d H).1 (allocDoc d H).2 hreg1 hroot1 hlen1)
  have hkAdd : HKeep H.length H (add_item_heap fuel H a p v).1 := by
    simp only [add_item_heap, h]
    exact HKeep_trans hk0
      (addLoopH_frame H.length (pySplitDot p) (allocDoc d H).1 (allocDoc d H).2 v
        hreg1 hroot1 hlen1)
  have hkRemove : HKeep H.length H (remove_item_heap fuel H a p v).1 := by
    simp only [remove_item_heap, h]
    exact HKeep_trans hk0
      (removeLoopH_frame H.length fuel (pySplitDot p) (allocDoc d H).1
        (allocDoc d H).2 v hreg1 hroot1 hlen1)
  refine ⟨readDoc_some_lt fuel H a d h, allocDoc_read d H,
    ⟨HKeep_take H.length H _ hkSet, readDoc_agree fuel H _ a d hkSet h, ?_⟩,
    ⟨HKeep_take H.length H _ hkUnset, readDoc_agree fuel H _ a d hkUnset h, ?_⟩,
    ⟨HKeep_take H.length H _ hkAdd, readDoc_agree fuel H _ a d hkAdd h, ?_⟩,
    ⟨HKeep_take H.length H _ hkRemove, readDoc_agree fuel H _ a d hkRemove h, ?_⟩⟩
  · simp only [set_item_heap, h]
    cases hw : (setLoopH (allocDoc d H).1 (allocDoc d H).2 (pySplitDot p) v).2 with
    | error e => simp [freshOk, hw, Except.map]
    | ok u => simp [freshOk, hw, Except.map]; exact hroot1
  · simp only [unset_item_heap, h]
    cases hw : (unsetLoopH (allocDoc d H).2 (pySplitDot p) (allocDoc d H).1
        (allocDoc d H).2 (pySplitDot p)).2 with
    | error e => simp [freshOk, hw, Except.map]
    | ok u => simp [freshOk, hw, Except.map]; exact hroot1
  · simp only [add_item_heap, h]
    cases hw : (addLoopH (allocDoc d H).1 (allocDoc d H).2 (pySplitDot p) v).2 with
    | error e => simp [freshOk, hw, Except.map]
    | ok u => simp [freshOk, hw, Except.map]; exact hroot1
  · simp only [remove_item_heap, h]
    cases hw : (removeLoopH fuel (allocDoc d H).1 (allocDoc d H).2 (pySplitDot p) v).2 with
    | error e => simp [freshOk, hw, Except.map]
    | ok u => simp [freshOk, hw, Except.map]; exact hroot1

theorem claim_C2_witness :
    readDoc 3 C2H 1 = some C2D ∧
    (1 < C2H.length ∧
      readDoc (ddepth C2D) (allocDoc C2D C2H).1 (allocDoc C2D C2H).2 = some C2D ∧
      ((set_item_heap 3 C2H 1 "a" 0).1.take C2H.length = C2H.take C2H.length ∧
        readDoc 3 (set_item_heap 3 C2H 1 "a" 0).1 1 = some C2D ∧
        freshOk C2H.length (set_item_heap 3 C2H 1 "a" 0).2 = true) ∧
      ((unset_item_heap 3 C2H 1 "a").1.take C2H.length = C2H.take C2H.length ∧
        readDoc 3 (unset_item_heap 3 C2H 1 "a").1 1 = some C2D ∧
        freshOk C2H.length (unset_item_heap 3 C2H 1 "a").2 = true) ∧
      ((add_item_heap 3 C2H 1 "a" 0).1.take C2H.length = C2H.take C2H.length ∧
        readDoc 3 (add_item_heap 3 C2H 1 "a" 0).1 1 = some C2D ∧
        freshOk C2H.length (add_item_heap 3 C2H 1 "a" 0).2 = true) ∧
      ((remove_item_heap 3 C2H 1 "a" 0).1.take C2H.length = C2H.take C2H.length ∧
        readDoc 3 (remove_item_heap 3 C2H 1 "a" 0).1 1 = some C2D ∧
        freshOk C2H.length (remove_item_heap 3 C2H 1 "a" 0).2 = true)) :=
  ⟨rfl, claim_C2 3 C2H 1 0 "a" C2D rfl⟩
